import Mathlib

/-!
# Gilded Rose (Go refactoring kata): daily update engine

Shallow embedding of `go/gildedrose/gildedrose.go` and proofs of its properties.

Modelling conventions.

* Go's `int` (64 bits wide on the 64-bit platforms) is embedded as an `Int` together with `wrapInt`, which brings
  the result of every addition and subtraction of the source back into
  `[minInt, maxInt]`, as Go's two's-complement arithmetic does. Comparisons are made
  on the wrapped values, as in the source.
* A Go `string` is embedded as a Lean `String`. `strings.HasPrefix` compares bytes;
  for the ASCII prefix used here, a byte prefix of a well-formed UTF-8 string is the
  same thing as a character prefix.
* An `*Item` is an address (`Ptr`) into a `Heap`, which gives the item stored at every
  address. The functions that take one `*Item` and write only through it are
  embedded as functions from the item before the call to the item after it;
  `UpdateQuality` takes the slice `[]*Item` as a list of addresses and passes the
  heap along, so an address that stands at several positions of the slice is updated
  once for each of them. A `nil` element is not an item and is left out.
* `n` successive calls of `UpdateQuality` on the same slice are
  `(UpdateQuality items)^[n]` (`Nat.iterate`).
-/

namespace GildedRose

/-! ## Machine integers -/

/-- The least value of Go's 64-bit `int`. -/
def minInt : Int := -9223372036854775808

/-- The greatest value of Go's 64-bit `int`. -/
def maxInt : Int := 9223372036854775807

/-- The value held by an `int` that is assigned the mathematical result `x`:
two's-complement wrap-around into `[minInt, maxInt]`. -/
def wrapInt (x : Int) : Int :=
  (x + 9223372036854775808) % 18446744073709551616 - 9223372036854775808

/-- The integer `x` is a value of Go's `int`. -/
def IsInt (x : Int) : Prop :=
  minInt ≤ x ∧ x ≤ maxInt

instance IsInt.decidable (x : Int) : Decidable (IsInt x) :=
  inferInstanceAs (Decidable (minInt ≤ x ∧ x ≤ maxInt))

/-! ## Data model -/

/-- Source `type Item struct { Name string; SellIn, Quality int }`. -/
structure Item where
  Name : String
  SellIn : Int
  Quality : Int
deriving DecidableEq

/-- Both `int` fields of the item hold values of Go's `int`. -/
def Item.WellTyped (item : Item) : Prop :=
  IsInt item.SellIn ∧ IsInt item.Quality

instance Item.WellTyped.decidable (item : Item) : Decidable item.WellTyped :=
  inferInstanceAs (Decidable (IsInt item.SellIn ∧ IsInt item.Quality))

/-- An `*Item`: the address of an item. -/
abbrev Ptr := Nat

/-- The memory the pointers point into: the item stored at each address. -/
abbrev Heap := Ptr → Item

/-- The heap after the item at address `p` has been overwritten with `item`. -/
def Heap.write (heap : Heap) (p : Ptr) (item : Item) : Heap :=
  fun q => if q = p then item else heap q

/-- A heap that stores the given items at the addresses `0, 1, 2, ...` (and an empty
item everywhere else); used to write down concrete inventories. -/
def heapOf (cells : List Item) : Heap :=
  fun p => cells.getD p (Item.mk "" 0 0)

/-- Go's `strings.HasPrefix(s, prefix)`, which the standard library defines as
`len(s) >= len(prefix) && s[:len(prefix)] == prefix`. -/
def HasPrefix (s pre : String) : Bool :=
  decide (s.length ≥ pre.length) && (s.toList.take pre.length == pre.toList)

/-! ## Category predicates -/

/-- Source `isSulfuras`: exact match on the legendary item's name. -/
def isSulfuras (item : Item) : Bool :=
  item.Name == "Sulfuras, Hand of Ragnaros"

/-- Source `isAgedBrie`: exact match. -/
def isAgedBrie (item : Item) : Bool :=
  item.Name == "Aged Brie"

/-- Source `isBackstagePass`: exact match. -/
def isBackstagePass (item : Item) : Bool :=
  item.Name == "Backstage passes to a TAFKAL80ETC concert"

/-- Source `isConjured`: `strings.HasPrefix(item.Name, "Conjured")`. -/
def isConjured (item : Item) : Bool :=
  HasPrefix item.Name "Conjured"

/-! ## Clamping primitives -/

/-- Source `increaseQuality`: `item.Quality += amount` (wrapping), then cap at 50. -/
def increaseQuality (item : Item) (amount : Int) : Item :=
  let item := { item with Quality := wrapInt (item.Quality + amount) }
  if item.Quality > 50 then { item with Quality := 50 } else item

/-- Source `decreaseQuality`: `item.Quality -= amount` (wrapping), then floor at 0. -/
def decreaseQuality (item : Item) (amount : Int) : Item :=
  let item := { item with Quality := wrapInt (item.Quality - amount) }
  if item.Quality < 0 then { item with Quality := 0 } else item

/-! ## Daily update -/

/-- Source `updateQuality`: the `switch` on the item's category, cases tried in the
source's order; the two Backstage thresholds read `SellIn` before it is decremented. -/
def updateQuality (item : Item) : Item :=
  if isAgedBrie item then increaseQuality item 1
  else if isBackstagePass item then
    let item := increaseQuality item 1
    let item := if item.SellIn ≤ 10 then increaseQuality item 1 else item
    let item := if item.SellIn ≤ 5 then increaseQuality item 1 else item
    item
  else if isConjured item then decreaseQuality item 2
  else decreaseQuality item 1

/-- Source `handleExpired`: the `switch` applied once the sell date has passed. -/
def handleExpired (item : Item) : Item :=
  if isAgedBrie item then increaseQuality item 1
  else if isBackstagePass item then { item with Quality := 0 }
  else if isConjured item then decreaseQuality item 2
  else decreaseQuality item 1

/-- Source `updateItem`: Sulfuras returns at once; every other item gets its quality
adjusted, `SellIn--` (wrapping), and `handleExpired` when the new `SellIn` is
negative. -/
def updateItem (item : Item) : Item :=
  if isSulfuras item then item
  else
    let item := updateQuality item
    let item := { item with SellIn := wrapInt (item.SellIn - 1) }
    if item.SellIn < 0 then handleExpired item else item

/-- Source `UpdateQuality`: `for _, item := range items { updateItem(item) }`. Each
element of the slice is an address; `updateItem` reads and writes the item stored
there, and the loop goes on with the heap so changed. -/
def UpdateQuality : List Ptr → Heap → Heap
  | [], heap => heap
  | item :: rest, heap => UpdateQuality rest (heap.write item (updateItem (heap item)))

/-! ## Names used in the statements -/

/-- The legendary item's name. -/
def sulfurasName : String := "Sulfuras, Hand of Ragnaros"

/-- The Aged Brie name. -/
def agedBrieName : String := "Aged Brie"

/-- The Backstage pass name. -/
def backstageName : String := "Backstage passes to a TAFKAL80ETC concert"

/-- The name `s` starts with `pre` at position 0: `s` is `pre` followed by some rest. -/
def StartsWith (s pre : String) : Prop :=
  ∃ rest : String, s = pre ++ rest

/-! ## The closed-form rule compared with day-by-day simulation -/

/-- The closed-form lookahead rule for a Normal item, in the specification's words:
the Quality that `n` days are said to leave to an item of Quality `q` and SellIn `s`:
`max(0, q - n - max(0, n - max(0, s)))`. -/
def normalLookahead (q s : Int) (n : Nat) : Int :=
  max 0 (q - n - max 0 (n - max 0 s))

/-! ## The category switch with its cases tested in another order

`updateQuality` and `handleExpired` are each a `switch` whose three cases are tried in
the order Aged Brie, Backstage pass, Conjured, before the `default`. The definitions
below are the same two switches with the order of the cases as a parameter; with
`sourceOrder` they are the source's functions. -/

/-- The three `case`s of the two switches. -/
inductive SwitchCase where
  | agedBrie
  | backstagePass
  | conjured
deriving DecidableEq

/-- The condition of a `case`: the source's predicate for it. -/
def SwitchCase.test : SwitchCase → Item → Bool
  | .agedBrie, item => isAgedBrie item
  | .backstagePass, item => isBackstagePass item
  | .conjured, item => isConjured item

/-- The body of each `case` of `updateQuality`. -/
def updateQualityCase : SwitchCase → Item → Item
  | .agedBrie, item => increaseQuality item 1
  | .backstagePass, item =>
    let item := increaseQuality item 1
    let item := if item.SellIn ≤ 10 then increaseQuality item 1 else item
    let item := if item.SellIn ≤ 5 then increaseQuality item 1 else item
    item
  | .conjured, item => decreaseQuality item 2

/-- The body of each `case` of `handleExpired`. -/
def handleExpiredCase : SwitchCase → Item → Item
  | .agedBrie, item => increaseQuality item 1
  | .backstagePass, item => { item with Quality := 0 }
  | .conjured, item => decreaseQuality item 2

/-- A Go expression-less `switch`: the cases are tried in the given order, the body of
the first one whose condition holds runs, and the `default` body runs if none holds. -/
def switchIn (order : List SwitchCase) (body : SwitchCase → Item → Item)
    (dflt : Item → Item) (item : Item) : Item :=
  match order with
  | [] => dflt item
  | c :: rest => if c.test item then body c item else switchIn rest body dflt item

/-- The order in which the source's switches try their cases. -/
def sourceOrder : List SwitchCase :=
  [SwitchCase.agedBrie, SwitchCase.backstagePass, SwitchCase.conjured]

/-- The function `updateQuality` with its cases tried in the given order. -/
def updateQualityIn (order : List SwitchCase) (item : Item) : Item :=
  switchIn order updateQualityCase (fun item => decreaseQuality item 1) item

/-- The function `handleExpired` with its cases tried in the given order. -/
def handleExpiredIn (order : List SwitchCase) (item : Item) : Item :=
  switchIn order handleExpiredCase (fun item => decreaseQuality item 1) item

/-- The function `updateItem` over the two reordered switches. -/
def updateItemIn (order₁ order₂ : List SwitchCase) (item : Item) : Item :=
  if isSulfuras item then item
  else
    let item := updateQualityIn order₁ item
    let item := { item with SellIn := wrapInt (item.SellIn - 1) }
    if item.SellIn < 0 then handleExpiredIn order₂ item else item


/-! ## Basic facts about the embedding -/

theorem wrapInt_of_isInt (x : Int) (h : IsInt x) : wrapInt x = x := by
  unfold IsInt minInt maxInt at h
  unfold wrapInt
  omega

theorem isInt_wrapInt (x : Int) : IsInt (wrapInt x) := by
  unfold IsInt minInt maxInt wrapInt
  omega

theorem HasPrefix_iff (s pre : String) : HasPrefix s pre = true ↔ StartsWith s pre := by
  unfold HasPrefix StartsWith
  constructor
  · intro h
    simp only [Bool.and_eq_true, decide_eq_true_eq, beq_iff_eq] at h
    refine ⟨⟨s.toList.drop pre.length⟩, ?_⟩
    apply String.ext
    rw [String.data_append]
    have := List.take_append_drop pre.length s.toList
    rw [h.2] at this
    exact this.symm
  · rintro ⟨rest, rfl⟩
    simp only [Bool.and_eq_true, decide_eq_true_eq, beq_iff_eq]
    constructor
    · simp [String.length_append]
    · show List.take pre.data.length (pre ++ rest).data = pre.data
      rw [String.data_append]
      simp

/-! ### The loop over the slice -/

/-- One call of `UpdateQuality` applies `updateItem` to the item at an address once for
every position of the slice that holds the address, and does nothing else to it. -/
theorem UpdateQuality_apply (items : List Ptr) (heap : Heap) (p : Ptr) :
    UpdateQuality items heap p = updateItem^[items.count p] (heap p) := by
  induction items generalizing heap with
  | nil => rfl
  | cons a rest ih =>
    unfold UpdateQuality
    rw [ih]
    by_cases h : a = p
    · subst h
      rw [List.count_cons_self, Function.iterate_succ_apply]
      unfold Heap.write
      rw [if_pos rfl]
    · rw [List.count_cons_of_ne (fun hp => h hp.symm)]
      unfold Heap.write
      rw [if_neg (fun hp => h hp.symm)]

/-- The same for `n` successive calls on the same slice. -/
theorem iterate_UpdateQuality_apply (n : Nat) (items : List Ptr) (heap : Heap) (p : Ptr) :
    (UpdateQuality items)^[n] heap p = updateItem^[n * items.count p] (heap p) := by
  induction n with
  | zero => rw [Nat.zero_mul]; rfl
  | succ k ih =>
    rw [Function.iterate_succ_apply', UpdateQuality_apply, ih, ← Function.iterate_add_apply,
      Nat.succ_mul, Nat.add_comm]

/-- An address that stands in the slice is updated at least once by a call. -/
theorem count_pos_of_getElem? (items : List Ptr) (i : Nat) (p : Ptr)
    (h : items[i]? = some p) : 0 < items.count p :=
  List.count_pos_iff.2 (List.getElem?_mem h)

/-! ### Fields that a function leaves alone -/

theorem increaseQuality_Name (item : Item) (a : Int) : (increaseQuality item a).Name = item.Name := by
  unfold increaseQuality
  dsimp only
  split <;> rfl

theorem increaseQuality_SellIn (item : Item) (a : Int) :
    (increaseQuality item a).SellIn = item.SellIn := by
  unfold increaseQuality
  dsimp only
  split <;> rfl

theorem increaseQuality_Quality (item : Item) (a : Int) :
    (increaseQuality item a).Quality = min 50 (wrapInt (item.Quality + a)) := by
  unfold increaseQuality
  dsimp only
  split <;> dsimp only <;> omega

theorem decreaseQuality_Name (item : Item) (a : Int) : (decreaseQuality item a).Name = item.Name := by
  unfold decreaseQuality
  dsimp only
  split <;> rfl

theorem decreaseQuality_SellIn (item : Item) (a : Int) :
    (decreaseQuality item a).SellIn = item.SellIn := by
  unfold decreaseQuality
  dsimp only
  split <;> rfl

theorem decreaseQuality_Quality (item : Item) (a : Int) :
    (decreaseQuality item a).Quality = max 0 (wrapInt (item.Quality - a)) := by
  unfold decreaseQuality
  dsimp only
  split <;> dsimp only <;> omega

theorem updateQuality_Name (item : Item) : (updateQuality item).Name = item.Name := by
  unfold updateQuality
  dsimp only
  split_ifs <;> simp only [increaseQuality_Name, decreaseQuality_Name]

theorem updateQuality_SellIn (item : Item) : (updateQuality item).SellIn = item.SellIn := by
  unfold updateQuality
  dsimp only
  split_ifs <;> simp only [increaseQuality_SellIn, decreaseQuality_SellIn]

theorem handleExpired_Name (item : Item) : (handleExpired item).Name = item.Name := by
  unfold handleExpired
  split_ifs <;> simp only [increaseQuality_Name, decreaseQuality_Name]

theorem handleExpired_SellIn (item : Item) : (handleExpired item).SellIn = item.SellIn := by
  unfold handleExpired
  split_ifs <;> simp only [increaseQuality_SellIn, decreaseQuality_SellIn]

theorem updateItem_Name (item : Item) : (updateItem item).Name = item.Name := by
  unfold updateItem
  dsimp only
  split_ifs <;> simp only [handleExpired_Name, updateQuality_Name]

theorem updateItem_SellIn (item : Item) (h : isSulfuras item = false) :
    (updateItem item).SellIn = wrapInt (item.SellIn - 1) := by
  unfold updateItem
  dsimp only
  rw [if_neg (by simp [h])]
  split_ifs <;> simp only [handleExpired_SellIn, updateQuality_SellIn]

/-! ### The four categories, read off the name -/

theorem isSulfuras_iff (item : Item) : isSulfuras item = true ↔ item.Name = sulfurasName := by
  simp [isSulfuras, sulfurasName]

theorem isAgedBrie_iff (item : Item) : isAgedBrie item = true ↔ item.Name = agedBrieName := by
  simp [isAgedBrie, agedBrieName]

theorem isBackstagePass_iff (item : Item) :
    isBackstagePass item = true ↔ item.Name = backstageName := by
  simp [isBackstagePass, backstageName]

theorem isConjured_iff (item : Item) :
    isConjured item = true ↔ StartsWith item.Name "Conjured" := by
  unfold isConjured
  exact HasPrefix_iff _ _

theorem isSulfuras_congr {a b : Item} (h : a.Name = b.Name) : isSulfuras a = isSulfuras b := by
  unfold isSulfuras; rw [h]

theorem isAgedBrie_congr {a b : Item} (h : a.Name = b.Name) : isAgedBrie a = isAgedBrie b := by
  unfold isAgedBrie; rw [h]

theorem isBackstagePass_congr {a b : Item} (h : a.Name = b.Name) :
    isBackstagePass a = isBackstagePass b := by
  unfold isBackstagePass; rw [h]

theorem isConjured_congr {a b : Item} (h : a.Name = b.Name) : isConjured a = isConjured b := by
  unfold isConjured; rw [h]

/-- An item that passes `isConjured` passes none of the three exact-match tests. -/
theorem isConjured_exclusive (item : Item) (h : isConjured item = true) :
    isSulfuras item = false ∧ isAgedBrie item = false ∧ isBackstagePass item = false := by
  refine ⟨?_, ?_, ?_⟩
  · cases hs : isSulfuras item with
    | false => rfl
    | true =>
      rw [isSulfuras_iff] at hs
      unfold isConjured at h
      rw [hs] at h
      exact absurd h (by decide)
  · cases hs : isAgedBrie item with
    | false => rfl
    | true =>
      rw [isAgedBrie_iff] at hs
      unfold isConjured at h
      rw [hs] at h
      exact absurd h (by decide)
  · cases hs : isBackstagePass item with
    | false => rfl
    | true =>
      rw [isBackstagePass_iff] at hs
      unfold isConjured at h
      rw [hs] at h
      exact absurd h (by decide)

theorem agedBrie_flags (item : Item) (h : item.Name = agedBrieName) :
    isSulfuras item = false ∧ isAgedBrie item = true := by
  unfold isSulfuras isAgedBrie
  rw [h]
  decide

theorem backstage_flags (item : Item) (h : item.Name = backstageName) :
    isSulfuras item = false ∧ isAgedBrie item = false ∧ isBackstagePass item = true := by
  unfold isSulfuras isAgedBrie isBackstagePass
  rw [h]
  decide


/-! ### One call, by category -/

/-- The item on which `updateItem` decides whether to call `handleExpired`. -/
theorem updateItem_eq (item : Item) (hs : isSulfuras item = false) :
    updateItem item =
      if wrapInt (item.SellIn - 1) < 0
      then handleExpired { updateQuality item with SellIn := wrapInt (item.SellIn - 1) }
      else { updateQuality item with SellIn := wrapInt (item.SellIn - 1) } := by
  unfold updateItem
  rw [if_neg (by simp [hs])]
  dsimp only
  rw [updateQuality_SellIn]

theorem updateItem_Quality_agedBrie (item : Item) (h : item.Name = agedBrieName) :
    (updateItem item).Quality =
      if wrapInt (item.SellIn - 1) < 0
      then min 50 (wrapInt (min 50 (wrapInt (item.Quality + 1)) + 1))
      else min 50 (wrapInt (item.Quality + 1)) := by
  obtain ⟨hs, hb⟩ := agedBrie_flags item h
  have hq : updateQuality item = increaseQuality item 1 := by
    unfold updateQuality; rw [if_pos hb]
  have hb' : isAgedBrie { updateQuality item with SellIn := wrapInt (item.SellIn - 1) }
      = true := by
    rw [← hb]; exact isAgedBrie_congr (updateQuality_Name item)
  rw [updateItem_eq item hs]
  split_ifs with h1
  · unfold handleExpired
    rw [if_pos hb', increaseQuality_Quality]
    dsimp only
    rw [hq, increaseQuality_Quality]
  · dsimp only
    rw [hq, increaseQuality_Quality]

theorem updateQuality_Quality_backstage (item : Item) (h : item.Name = backstageName) :
    (updateQuality item).Quality =
      if item.SellIn ≤ 5
      then min 50 (wrapInt (min 50 (wrapInt (min 50 (wrapInt (item.Quality + 1)) + 1)) + 1))
      else if item.SellIn ≤ 10 then min 50 (wrapInt (min 50 (wrapInt (item.Quality + 1)) + 1))
      else min 50 (wrapInt (item.Quality + 1)) := by
  obtain ⟨-, hb, hp⟩ := backstage_flags item h
  unfold updateQuality
  rw [if_neg (by simp [hb]), if_pos hp]
  dsimp only
  rw [increaseQuality_SellIn]
  by_cases h10 : item.SellIn ≤ 10
  · rw [if_pos h10, increaseQuality_SellIn, increaseQuality_SellIn]
    by_cases h5 : item.SellIn ≤ 5
    · rw [if_pos h5, if_pos h5]
      simp only [increaseQuality_Quality]
    · rw [if_neg h5, if_neg h5, if_pos h10]
      simp only [increaseQuality_Quality]
  · rw [if_neg h10, increaseQuality_SellIn, if_neg (by omega), if_neg (by omega), if_neg h10]
    simp only [increaseQuality_Quality]

theorem updateItem_Quality_backstage (item : Item) (h : item.Name = backstageName) :
    (updateItem item).Quality =
      if wrapInt (item.SellIn - 1) < 0 then 0 else (updateQuality item).Quality := by
  obtain ⟨hs, hb, hp⟩ := backstage_flags item h
  have hb' : isAgedBrie { updateQuality item with SellIn := wrapInt (item.SellIn - 1) }
      = false := by
    rw [← hb]; exact isAgedBrie_congr (updateQuality_Name item)
  have hp' : isBackstagePass { updateQuality item with SellIn := wrapInt (item.SellIn - 1) }
      = true := by
    rw [← hp]; exact isBackstagePass_congr (updateQuality_Name item)
  rw [updateItem_eq item hs]
  split_ifs with h1
  · unfold handleExpired
    rw [if_neg (by simp [hb']), if_pos hp']
  · rfl

theorem updateItem_Quality_conjured (item : Item) (hc : isConjured item = true) :
    (updateItem item).Quality =
      if wrapInt (item.SellIn - 1) < 0
      then max 0 (wrapInt (max 0 (wrapInt (item.Quality - 2)) - 2))
      else max 0 (wrapInt (item.Quality - 2)) := by
  obtain ⟨hs, hb, hp⟩ := isConjured_exclusive item hc
  have hq : updateQuality item = decreaseQuality item 2 := by
    unfold updateQuality
    rw [if_neg (by simp [hb]), if_neg (by simp [hp]), if_pos hc]
  have hb' : isAgedBrie { updateQuality item with SellIn := wrapInt (item.SellIn - 1) }
      = false := by
    rw [← hb]; exact isAgedBrie_congr (updateQuality_Name item)
  have hp' : isBackstagePass { updateQuality item with SellIn := wrapInt (item.SellIn - 1) }
      = false := by
    rw [← hp]; exact isBackstagePass_congr (updateQuality_Name item)
  have hc' : isConjured { updateQuality item with SellIn := wrapInt (item.SellIn - 1) }
      = true := by
    rw [← hc]; exact isConjured_congr (updateQuality_Name item)
  rw [updateItem_eq item hs]
  split_ifs with h1
  · unfold handleExpired
    rw [if_neg (by simp [hb']), if_neg (by simp [hp']), if_pos hc', decreaseQuality_Quality]
    dsimp only
    rw [hq, decreaseQuality_Quality]
  · dsimp only
    rw [hq, decreaseQuality_Quality]

theorem updateItem_Quality_normal (item : Item) (hs : isSulfuras item = false)
    (hb : isAgedBrie item = false) (hp : isBackstagePass item = false)
    (hc : isConjured item = false) :
    (updateItem item).Quality =
      if wrapInt (item.SellIn - 1) < 0
      then max 0 (wrapInt (max 0 (wrapInt (item.Quality - 1)) - 1))
      else max 0 (wrapInt (item.Quality - 1)) := by
  have hq : updateQuality item = decreaseQuality item 1 := by
    unfold updateQuality
    rw [if_neg (by simp [hb]), if_neg (by simp [hp]), if_neg (by simp [hc])]
  have hb' : isAgedBrie { updateQuality item with SellIn := wrapInt (item.SellIn - 1) }
      = false := by
    rw [← hb]; exact isAgedBrie_congr (updateQuality_Name item)
  have hp' : isBackstagePass { updateQuality item with SellIn := wrapInt (item.SellIn - 1) }
      = false := by
    rw [← hp]; exact isBackstagePass_congr (updateQuality_Name item)
  have hc' : isConjured { updateQuality item with SellIn := wrapInt (item.SellIn - 1) }
      = false := by
    rw [← hc]; exact isConjured_congr (updateQuality_Name item)
  rw [updateItem_eq item hs]
  split_ifs with h1
  · unfold handleExpired
    rw [if_neg (by simp [hb']), if_neg (by simp [hp']), if_neg (by simp [hc']),
      decreaseQuality_Quality]
    dsimp only
    rw [hq, decreaseQuality_Quality]
  · dsimp only
    rw [hq, decreaseQuality_Quality]

/-! ### One call, by category, away from the ends of the `int` range -/

/-- With a SellIn above the least `int`, `SellIn--` does not wrap. -/
theorem wrapInt_pred (s : Int) (h₁ : minInt < s) (h₂ : s ≤ maxInt) : wrapInt (s - 1) = s - 1 := by
  unfold minInt at h₁
  unfold maxInt at h₂
  unfold wrapInt
  omega

theorem updateItem_Quality_agedBrie_exact (item : Item) (h : item.Name = agedBrieName)
    (hs₁ : minInt < item.SellIn) (hs₂ : item.SellIn ≤ maxInt)
    (hq₁ : minInt ≤ item.Quality) (hq₂ : item.Quality < maxInt) :
    (updateItem item).Quality =
      if 0 < item.SellIn then min 50 (item.Quality + 1) else min 50 (item.Quality + 2) := by
  rw [updateItem_Quality_agedBrie item h, wrapInt_pred _ hs₁ hs₂]
  unfold minInt at hq₁
  unfold maxInt at hq₂
  unfold wrapInt
  split_ifs <;> omega

theorem updateQuality_Quality_backstage_exact (item : Item) (h : item.Name = backstageName)
    (hq₁ : minInt ≤ item.Quality) (hq₂ : item.Quality < maxInt) :
    (updateQuality item).Quality =
      if item.SellIn ≤ 5 then min 50 (item.Quality + 3)
      else if item.SellIn ≤ 10 then min 50 (item.Quality + 2)
      else min 50 (item.Quality + 1) := by
  rw [updateQuality_Quality_backstage item h]
  unfold minInt at hq₁
  unfold maxInt at hq₂
  unfold wrapInt
  split_ifs <;> omega

theorem updateItem_Quality_conjured_exact (item : Item) (hc : isConjured item = true)
    (hs₁ : minInt < item.SellIn) (hs₂ : item.SellIn ≤ maxInt)
    (hq₁ : minInt + 2 ≤ item.Quality) (hq₂ : item.Quality ≤ maxInt) :
    (updateItem item).Quality =
      if 0 < item.SellIn then max 0 (item.Quality - 2) else max 0 (item.Quality - 4) := by
  rw [updateItem_Quality_conjured item hc, wrapInt_pred _ hs₁ hs₂]
  unfold minInt at hq₁
  unfold maxInt at hq₂
  unfold wrapInt
  split_ifs <;> omega

theorem updateItem_Quality_normal_exact (item : Item) (hs : isSulfuras item = false)
    (hb : isAgedBrie item = false) (hp : isBackstagePass item = false)
    (hc : isConjured item = false)
    (hs₁ : minInt < item.SellIn) (hs₂ : item.SellIn ≤ maxInt)
    (hq₁ : minInt < item.Quality) (hq₂ : item.Quality ≤ maxInt) :
    (updateItem item).Quality =
      if 0 < item.SellIn then max 0 (item.Quality - 1) else max 0 (item.Quality - 2) := by
  rw [updateItem_Quality_normal item hs hb hp hc, wrapInt_pred _ hs₁ hs₂]
  unfold minInt at hq₁
  unfold maxInt at hq₂
  unfold wrapInt
  split_ifs <;> omega

/-! ### Several updates of one item -/

theorem iterate_updateItem_Name (n : Nat) (item : Item) :
    (updateItem^[n] item).Name = item.Name := by
  induction n with
  | zero => rfl
  | succ k ih => rw [Function.iterate_succ_apply', updateItem_Name, ih]

theorem iterate_updateItem_sulfuras (n : Nat) (item : Item) (h : isSulfuras item = true) :
    updateItem^[n] item = item := by
  induction n with
  | zero => rfl
  | succ k ih =>
    rw [Function.iterate_succ_apply', ih]
    unfold updateItem
    rw [if_pos h]

/-- The category flags of an item are those it had before the updates. -/
theorem iterate_updateItem_flags (k : Nat) (item : Item) :
    isSulfuras (updateItem^[k] item) = isSulfuras item ∧
    isAgedBrie (updateItem^[k] item) = isAgedBrie item ∧
    isBackstagePass (updateItem^[k] item) = isBackstagePass item ∧
    isConjured (updateItem^[k] item) = isConjured item :=
  ⟨isSulfuras_congr (iterate_updateItem_Name k item),
    isAgedBrie_congr (iterate_updateItem_Name k item),
    isBackstagePass_congr (iterate_updateItem_Name k item),
    isConjured_congr (iterate_updateItem_Name k item)⟩

/-- As long as `s - n` is an `int`, `n` updates take the SellIn `s` to `s - n`. -/
theorem iterate_updateItem_SellIn (n : Nat) (item : Item) (h : isSulfuras item = false)
    (h₁ : minInt ≤ item.SellIn - (n : Int)) (h₂ : item.SellIn ≤ maxInt) :
    (updateItem^[n] item).SellIn = item.SellIn - (n : Int) := by
  induction n with
  | zero => simp
  | succ k ih =>
    have hk : isSulfuras (updateItem^[k] item) = false :=
      (iterate_updateItem_flags k item).1.trans h
    push_cast at h₁
    rw [Function.iterate_succ_apply', updateItem_SellIn _ hk, ih (by omega)]
    push_cast
    rw [wrapInt_pred _ (by omega) (by omega)]
    omega

theorem isSulfuras_false_of_ne (item : Item) (h : item.Name ≠ "Sulfuras, Hand of Ragnaros") :
    isSulfuras item = false := by
  cases hs : isSulfuras item with
  | false => rfl
  | true => exact absurd ((isSulfuras_iff item).1 hs) h

theorem isAgedBrie_false_of_ne (item : Item) (h : item.Name ≠ "Aged Brie") :
    isAgedBrie item = false := by
  cases hs : isAgedBrie item with
  | false => rfl
  | true => exact absurd ((isAgedBrie_iff item).1 hs) h

theorem isBackstagePass_false_of_ne (item : Item)
    (h : item.Name ≠ "Backstage passes to a TAFKAL80ETC concert") :
    isBackstagePass item = false := by
  cases hs : isBackstagePass item with
  | false => rfl
  | true => exact absurd ((isBackstagePass_iff item).1 hs) h

theorem isConjured_false_of_not (item : Item) (h : ¬ StartsWith item.Name "Conjured") :
    isConjured item = false := by
  cases hs : isConjured item with
  | false => rfl
  | true => exact absurd ((isConjured_iff item).1 hs) h

/-- What one update does to the quality bounds of an item that is not Sulfuras. The
clamp of the item's own category holds after the update whatever the Quality was;
a Quality inside `[0, 50]` stays there; and a bound that held before is kept unless
the first addition or subtraction wraps around. -/
theorem updateItem_Quality_bounds (item : Item) (hs : isSulfuras item = false) :
    (isAgedBrie item = true ∨ isBackstagePass item = true → (updateItem item).Quality ≤ 50) ∧
    (isAgedBrie item = false ∧ isBackstagePass item = false → 0 ≤ (updateItem item).Quality) ∧
    (0 ≤ item.Quality → item.Quality ≤ 50 →
      0 ≤ (updateItem item).Quality ∧ (updateItem item).Quality ≤ 50) ∧
    (minInt + 2 ≤ item.Quality → item.Quality ≤ 50 → (updateItem item).Quality ≤ 50) ∧
    (0 ≤ item.Quality → item.Quality < maxInt → 0 ≤ (updateItem item).Quality) := by
  unfold minInt maxInt
  cases hb : isAgedBrie item with
  | true =>
    have hq := updateItem_Quality_agedBrie item ((isAgedBrie_iff item).1 hb)
    unfold wrapInt at hq
    refine ⟨fun _ => ?_, fun h => ?_, fun h h' => ?_, fun h h' => ?_, fun h h' => ?_⟩
    · rw [hq]; split_ifs <;> omega
    · exact absurd h.1 (by simp)
    · rw [hq]; split_ifs <;> omega
    · rw [hq]; split_ifs <;> omega
    · rw [hq]; split_ifs <;> omega
  | false =>
    cases hp : isBackstagePass item with
    | true =>
      have hname := (isBackstagePass_iff item).1 hp
      have hq := updateItem_Quality_backstage item hname
      have hq2 := updateQuality_Quality_backstage item hname
      unfold wrapInt at hq hq2
      refine ⟨fun _ => ?_, fun h => ?_, fun h h' => ?_, fun h h' => ?_, fun h h' => ?_⟩
      · rw [hq, hq2]; split_ifs <;> omega
      · exact absurd h.2 (by simp)
      · rw [hq, hq2]; split_ifs <;> omega
      · rw [hq, hq2]; split_ifs <;> omega
      · rw [hq, hq2]; split_ifs <;> omega
    | false =>
      cases hc : isConjured item with
      | true =>
        have hq := updateItem_Quality_conjured item hc
        unfold wrapInt at hq
        refine ⟨fun h => ?_, fun _ => ?_, fun h h' => ?_, fun h h' => ?_, fun h h' => ?_⟩
        · rcases h with h | h <;> exact absurd h (by simp)
        · rw [hq]; split_ifs <;> omega
        · rw [hq]; split_ifs <;> omega
        · rw [hq]; split_ifs <;> omega
        · rw [hq]; split_ifs <;> omega
      | false =>
        have hq := updateItem_Quality_normal item hs hb hp hc
        unfold wrapInt at hq
        refine ⟨fun h => ?_, fun _ => ?_, fun h h' => ?_, fun h h' => ?_, fun h h' => ?_⟩
        · rcases h with h | h <;> exact absurd h (by simp)
        · rw [hq]; split_ifs <;> omega
        · rw [hq]; split_ifs <;> omega
        · rw [hq]; split_ifs <;> omega
        · rw [hq]; split_ifs <;> omega

/-- A Quality inside `[0, 50]` stays there through any number of updates. -/
theorem iterate_updateItem_Quality_range (n : Nat) (item : Item)
    (hs : isSulfuras item = false) (hlo : 0 ≤ item.Quality) (hhi : item.Quality ≤ 50) :
    0 ≤ (updateItem^[n] item).Quality ∧ (updateItem^[n] item).Quality ≤ 50 := by
  induction n with
  | zero => exact ⟨hlo, hhi⟩
  | succ k ih =>
    have hk : isSulfuras (updateItem^[k] item) = false :=
      (iterate_updateItem_flags k item).1.trans hs
    rw [Function.iterate_succ_apply']
    exact (updateItem_Quality_bounds _ hk).2.2.1 ih.1 ih.2

/-- After at least one update the clamp of the item's own category holds, and a
bound that held before the first update holds too unless that update wraps around. -/
theorem iterate_updateItem_Quality_bounds (n : Nat) (item : Item)
    (hs : isSulfuras item = false) (hn : 1 ≤ n) :
    (isAgedBrie item = true ∨ isBackstagePass item = true →
      (updateItem^[n] item).Quality ≤ 50) ∧
    (isAgedBrie item = false ∧ isBackstagePass item = false →
      0 ≤ (updateItem^[n] item).Quality) ∧
    (minInt + 2 ≤ item.Quality → item.Quality ≤ 50 → (updateItem^[n] item).Quality ≤ 50) ∧
    (0 ≤ item.Quality → item.Quality < maxInt → 0 ≤ (updateItem^[n] item).Quality) := by
  obtain ⟨k, rfl⟩ : ∃ k, n = k + 1 := ⟨n - 1, by omega⟩
  obtain ⟨fs, fb, fp, -⟩ := iterate_updateItem_flags k item
  have hlast := updateItem_Quality_bounds (updateItem^[k] item) (fs.trans hs)
  have hfirst := updateItem_Quality_bounds item hs
  have hs' : isSulfuras (updateItem item) = false := by
    rw [← hs]; exact isSulfuras_congr (updateItem_Name item)
  have hup : isAgedBrie item = true ∨ isBackstagePass item = true →
      (updateItem^[k + 1] item).Quality ≤ 50 := by
    intro h
    rw [Function.iterate_succ_apply']
    exact hlast.1 (by rw [fb, fp]; exact h)
  have hdown : isAgedBrie item = false ∧ isBackstagePass item = false →
      0 ≤ (updateItem^[k + 1] item).Quality := by
    intro h
    rw [Function.iterate_succ_apply']
    exact hlast.2.1 (by rw [fb, fp]; exact h)
  refine ⟨hup, hdown, fun h h' => ?_, fun h h' => ?_⟩
  · by_cases hcat : isAgedBrie item = true ∨ isBackstagePass item = true
    · exact hup hcat
    · have hcat' : isAgedBrie item = false ∧ isBackstagePass item = false := by
        constructor
        · cases hb : isAgedBrie item with
          | false => rfl
          | true => exact absurd (Or.inl hb) hcat
        · cases hp : isBackstagePass item with
          | false => rfl
          | true => exact absurd (Or.inr hp) hcat
      rw [Function.iterate_succ_apply]
      exact (iterate_updateItem_Quality_range k _ hs' (hfirst.2.1 hcat')
        (hfirst.2.2.2.1 h h')).2
  · by_cases hcat : isAgedBrie item = true ∨ isBackstagePass item = true
    · rw [Function.iterate_succ_apply]
      exact (iterate_updateItem_Quality_range k _ hs' (hfirst.2.2.2.2 h h')
        (hfirst.1 hcat)).1
    · have hcat' : isAgedBrie item = false ∧ isBackstagePass item = false := by
        constructor
        · cases hb : isAgedBrie item with
          | false => rfl
          | true => exact absurd (Or.inl hb) hcat
        · cases hp : isBackstagePass item with
          | false => rfl
          | true => exact absurd (Or.inr hp) hcat
      exact hdown hcat'

/-! ### Long runs -/

/-- One update takes at least 1 off a Quality in `[0, 50]` of a Conjured or Normal
item, down to 0. -/
theorem updateItem_Quality_le_pred (item : Item) (hs : isSulfuras item = false)
    (hb : isAgedBrie item = false) (hp : isBackstagePass item = false)
    (hlo : 0 ≤ item.Quality) (hhi : item.Quality ≤ 50) :
    (updateItem item).Quality ≤ max 0 (item.Quality - 1) := by
  cases hc : isConjured item with
  | true =>
    rw [updateItem_Quality_conjured item hc]
    unfold wrapInt
    split_ifs <;> omega
  | false =>
    rw [updateItem_Quality_normal item hs hb hp hc]
    unfold wrapInt
    split_ifs <;> omega

/-- One update adds at least 1 to a Quality in `[0, 50]` of an Aged Brie, up to 50. -/
theorem updateItem_Quality_ge_succ (item : Item) (hb : isAgedBrie item = true)
    (hlo : 0 ≤ item.Quality) (hhi : item.Quality ≤ 50) :
    min 50 (item.Quality + 1) ≤ (updateItem item).Quality := by
  rw [updateItem_Quality_agedBrie item ((isAgedBrie_iff item).1 hb)]
  unfold wrapInt
  split_ifs <;> omega

theorem iterate_Quality_le_sub (n : Nat) (item : Item) (hs : isSulfuras item = false)
    (hb : isAgedBrie item = false) (hp : isBackstagePass item = false)
    (hlo : 0 ≤ item.Quality) (hhi : item.Quality ≤ 50) :
    (updateItem^[n] item).Quality ≤ max 0 (item.Quality - (n : Int)) := by
  induction n with
  | zero => rw [Function.iterate_zero_apply]; push_cast; omega
  | succ k ih =>
    obtain ⟨fs, fb, fp, -⟩ := iterate_updateItem_flags k item
    have hr := iterate_updateItem_Quality_range k item hs hlo hhi
    have step := updateItem_Quality_le_pred _ (fs.trans hs) (fb.trans hb) (fp.trans hp)
      hr.1 hr.2
    rw [Function.iterate_succ_apply']
    push_cast
    omega

theorem iterate_Quality_ge_add (n : Nat) (item : Item) (hs : isSulfuras item = false)
    (hb : isAgedBrie item = true) (hlo : 0 ≤ item.Quality) (hhi : item.Quality ≤ 50) :
    min 50 (item.Quality + (n : Int)) ≤ (updateItem^[n] item).Quality := by
  induction n with
  | zero => rw [Function.iterate_zero_apply]; push_cast; omega
  | succ k ih =>
    obtain ⟨-, fb, -, -⟩ := iterate_updateItem_flags k item
    have hr := iterate_updateItem_Quality_range k item hs hlo hhi
    have step := updateItem_Quality_ge_succ _ (fb.trans hb) hr.1 hr.2
    rw [Function.iterate_succ_apply']
    push_cast
    omega

/-- Day-by-day simulation of a Normal item against the closed form, as long as
neither the Quality nor the SellIn wraps around. -/
theorem iterate_Quality_normal (n : Nat) (item : Item) (hs : isSulfuras item = false)
    (hb : isAgedBrie item = false) (hp : isBackstagePass item = false)
    (hc : isConjured item = false)
    (hs₁ : minInt ≤ item.SellIn - (n : Int)) (hs₂ : item.SellIn ≤ maxInt)
    (hq₂ : item.Quality ≤ maxInt)
    (h : 0 ≤ item.Quality ∨ (1 ≤ n ∧ minInt < item.Quality)) :
    (updateItem^[n] item).Quality = normalLookahead item.Quality item.SellIn n := by
  induction n with
  | zero =>
    unfold normalLookahead
    rw [Function.iterate_zero_apply]
    rcases h with h | h
    · push_cast
      omega
    · omega
  | succ k ih =>
    obtain ⟨fs, fb, fp, fc⟩ := iterate_updateItem_flags k item
    push_cast at hs₁
    have hsell := iterate_updateItem_SellIn k item hs (by omega) hs₂
    rw [Function.iterate_succ_apply',
      updateItem_Quality_normal _ (fs.trans hs) (fb.trans hb) (fp.trans hp) (fc.trans hc),
      hsell, wrapInt_pred _ (by omega) (by omega)]
    by_cases hk : k = 0
    · subst hk
      rw [Function.iterate_zero_apply]
      unfold normalLookahead
      unfold minInt at h hs₁
      unfold maxInt at hq₂ hs₂
      unfold wrapInt
      push_cast
      split_ifs <;> omega
    · have hk' : 0 ≤ item.Quality ∨ (1 ≤ k ∧ minInt < item.Quality) := by
        rcases h with h | h
        · exact Or.inl h
        · exact Or.inr ⟨by omega, h.2⟩
      rw [ih (by omega) hk']
      unfold normalLookahead
      unfold minInt at h hs₁
      unfold maxInt at hq₂ hs₂
      unfold wrapInt
      push_cast
      split_ifs <;> omega

/-! ### Two items side by side -/

/-- One update of two items of the same Name and SellIn, whose Qualities are in order
and away from the ends of the `int` range, leaves them so. -/
theorem updateItem_mono (a b : Item) (hname : a.Name = b.Name)
    (hsell : a.SellIn = b.SellIn) (hq : a.Quality ≤ b.Quality)
    (hq₁ : minInt + 2 ≤ a.Quality) (hq₂ : b.Quality < maxInt) :
    (updateItem a).Name = (updateItem b).Name ∧
    (updateItem a).SellIn = (updateItem b).SellIn ∧
    (updateItem a).Quality ≤ (updateItem b).Quality ∧
    minInt + 2 ≤ (updateItem a).Quality ∧ (updateItem b).Quality < maxInt := by
  refine ⟨by rw [updateItem_Name, updateItem_Name, hname], ?_, ?_⟩
  · cases hs : isSulfuras a with
    | true =>
      have hs' : isSulfuras b = true := by rw [← hs]; exact (isSulfuras_congr hname).symm
      unfold updateItem
      rw [if_pos hs, if_pos hs']
      exact hsell
    | false =>
      have hs' : isSulfuras b = false := by rw [← hs]; exact (isSulfuras_congr hname).symm
      rw [updateItem_SellIn a hs, updateItem_SellIn b hs', hsell]
  · unfold minInt at hq₁ ⊢
    unfold maxInt at hq₂ ⊢
    cases hs : isSulfuras a with
    | true =>
      have hs' : isSulfuras b = true := by rw [← hs]; exact (isSulfuras_congr hname).symm
      unfold updateItem
      rw [if_pos hs, if_pos hs']
      exact ⟨hq, hq₁, hq₂⟩
    | false =>
      have hs' : isSulfuras b = false := by rw [← hs]; exact (isSulfuras_congr hname).symm
      cases hb : isAgedBrie a with
      | true =>
        have ha := (isAgedBrie_iff a).1 hb
        rw [updateItem_Quality_agedBrie a ha, updateItem_Quality_agedBrie b (hname ▸ ha), hsell]
        unfold wrapInt
        split_ifs <;> omega
      | false =>
        have hb' : isAgedBrie b = false := by rw [← hb]; exact (isAgedBrie_congr hname).symm
        cases hp : isBackstagePass a with
        | true =>
          have ha := (isBackstagePass_iff a).1 hp
          rw [updateItem_Quality_backstage a ha, updateItem_Quality_backstage b (hname ▸ ha),
            updateQuality_Quality_backstage a ha, updateQuality_Quality_backstage b (hname ▸ ha),
            hsell]
          unfold wrapInt
          split_ifs <;> omega
        | false =>
          have hp' : isBackstagePass b = false := by
            rw [← hp]; exact (isBackstagePass_congr hname).symm
          cases hc : isConjured a with
          | true =>
            have hc' : isConjured b = true := by
              rw [← hc]; exact (isConjured_congr hname).symm
            rw [updateItem_Quality_conjured a hc, updateItem_Quality_conjured b hc', hsell]
            unfold wrapInt
            split_ifs <;> omega
          | false =>
            have hc' : isConjured b = false := by
              rw [← hc]; exact (isConjured_congr hname).symm
            rw [updateItem_Quality_normal a hs hb hp hc,
              updateItem_Quality_normal b hs' hb' hp' hc', hsell]
            unfold wrapInt
            split_ifs <;> omega

/-- The same through any number of updates of both items. -/
theorem iterate_updateItem_mono (n : Nat) (a b : Item) (hname : a.Name = b.Name)
    (hsell : a.SellIn = b.SellIn) (hq : a.Quality ≤ b.Quality)
    (hq₁ : minInt + 2 ≤ a.Quality) (hq₂ : b.Quality < maxInt) :
    (updateItem^[n] a).Name = (updateItem^[n] b).Name ∧
    (updateItem^[n] a).SellIn = (updateItem^[n] b).SellIn ∧
    (updateItem^[n] a).Quality ≤ (updateItem^[n] b).Quality ∧
    minInt + 2 ≤ (updateItem^[n] a).Quality ∧ (updateItem^[n] b).Quality < maxInt := by
  induction n with
  | zero => exact ⟨hname, hsell, hq, hq₁, hq₂⟩
  | succ k ih =>
    rw [Function.iterate_succ_apply', Function.iterate_succ_apply']
    exact updateItem_mono _ _ ih.1 ih.2.1 ih.2.2.1 ih.2.2.2.1 ih.2.2.2.2

/-! ### An expired Backstage pass -/

/-- A Backstage pass with SellIn `≤ 0` has Quality 0 after one or more updates, as
long as its SellIn stays above the least `int` before each of them. -/
theorem iterate_updateItem_Quality_backstage_expired (n : Nat) (item : Item)
    (hname : item.Name = backstageName) (hn : 1 ≤ n)
    (hs₁ : minInt + (n : Int) ≤ item.SellIn) (hs₂ : item.SellIn ≤ 0) :
    (updateItem^[n] item).Quality = 0 := by
  obtain ⟨hsulf, -, -⟩ := backstage_flags item hname
  obtain ⟨k, rfl⟩ : ∃ k, n = k + 1 := ⟨n - 1, by omega⟩
  push_cast at hs₁
  have hname_k : (updateItem^[k] item).Name = backstageName :=
    (iterate_updateItem_Name k item).trans hname
  have hsell_k := iterate_updateItem_SellIn k item hsulf (by omega) (by unfold maxInt; omega)
  rw [Function.iterate_succ_apply', updateItem_Quality_backstage _ hname_k, hsell_k,
    wrapInt_pred _ (by omega) (by unfold maxInt; omega), if_pos (by omega)]

/-! ### The order of the switch cases -/

/-- With the source's order the reordered switches are the source's functions. -/
theorem updateQualityIn_sourceOrder (item : Item) :
    updateQualityIn sourceOrder item = updateQuality item := rfl

theorem handleExpiredIn_sourceOrder (item : Item) :
    handleExpiredIn sourceOrder item = handleExpired item := rfl

theorem updateItemIn_sourceOrder (item : Item) :
    updateItemIn sourceOrder sourceOrder item = updateItem item := rfl

/-- No item passes two of the three exact-match tests. -/
theorem exact_names_exclusive (item : Item) :
    (isSulfuras item = true → isAgedBrie item = false ∧ isBackstagePass item = false) ∧
    (isAgedBrie item = true → isBackstagePass item = false) := by
  unfold isSulfuras isAgedBrie isBackstagePass
  constructor
  · intro h
    rw [beq_iff_eq] at h
    rw [h]
    decide
  · intro h
    rw [beq_iff_eq] at h
    rw [h]
    decide

/-- No item passes the conditions of two different cases. -/
theorem SwitchCase.test_exclusive (item : Item) (c d : SwitchCase)
    (hc : c.test item = true) (hd : d.test item = true) : c = d := by
  have hx := exact_names_exclusive item
  cases c <;> cases d
  · rfl
  · exact absurd ((hx.2 hc).symm.trans hd) Bool.false_ne_true
  · exact absurd ((isConjured_exclusive item hd).2.1.symm.trans hc) Bool.false_ne_true
  · exact absurd ((hx.2 hd).symm.trans hc) Bool.false_ne_true
  · rfl
  · exact absurd ((isConjured_exclusive item hd).2.2.symm.trans hc) Bool.false_ne_true
  · exact absurd ((isConjured_exclusive item hc).2.1.symm.trans hd) Bool.false_ne_true
  · exact absurd ((isConjured_exclusive item hc).2.2.symm.trans hd) Bool.false_ne_true
  · rfl

/-- A switch runs the body of the case whose condition holds, wherever it stands. -/
theorem switchIn_of_test (order : List SwitchCase) (body : SwitchCase → Item → Item)
    (dflt : Item → Item) (item : Item) (c : SwitchCase) (hmem : c ∈ order)
    (hc : c.test item = true) : switchIn order body dflt item = body c item := by
  induction order with
  | nil => exact absurd hmem (List.not_mem_nil c)
  | cons d rest ih =>
    unfold switchIn
    by_cases hd : d.test item = true
    · rw [if_pos hd, SwitchCase.test_exclusive item d c hd hc]
    · rw [if_neg hd]
      rcases List.mem_cons.1 hmem with h | h
      · exact absurd (h ▸ hc) hd
      · exact ih h

/-- Two orders that list the same cases give the same switch. -/
theorem switchIn_order_irrelevant (order₁ order₂ : List SwitchCase)
    (body : SwitchCase → Item → Item) (dflt : Item → Item) (item : Item)
    (hsame : ∀ c : SwitchCase, c ∈ order₁ ↔ c ∈ order₂) :
    switchIn order₁ body dflt item = switchIn order₂ body dflt item := by
  by_cases h : ∃ c : SwitchCase, c ∈ order₁ ∧ c.test item = true
  · obtain ⟨c, hmem, hc⟩ := h
    rw [switchIn_of_test order₁ body dflt item c hmem hc,
      switchIn_of_test order₂ body dflt item c ((hsame c).1 hmem) hc]
  · have key : ∀ (order : List SwitchCase),
        (∀ c : SwitchCase, c ∈ order → c.test item = false) →
        switchIn order body dflt item = dflt item := by
      intro order
      induction order with
      | nil => intro _; rfl
      | cons d rest ih =>
        intro hall
        unfold switchIn
        rw [if_neg (by simp [hall d (List.mem_cons_self d rest)]),
          ih (fun c hc => hall c (List.mem_cons_of_mem d hc))]
    have h₁ : ∀ c : SwitchCase, c ∈ order₁ → c.test item = false := by
      intro c hmem
      cases hc : c.test item with
      | false => rfl
      | true => exact absurd ⟨c, hmem, hc⟩ h
    rw [key order₁ h₁, key order₂ (fun c hmem => h₁ c ((hsame c).2 hmem))]

/-! ### The scenarios of `gildedrose_test.go`, replayed on the embedding -/

theorem source_tests_normal_and_conjured :
    UpdateQuality [0] (heapOf [Item.mk "Elixir of the Mongoose" 5 10]) 0
      = Item.mk "Elixir of the Mongoose" 4 9 ∧
    UpdateQuality [0] (heapOf [Item.mk "Elixir of the Mongoose" 0 10]) 0
      = Item.mk "Elixir of the Mongoose" (-1) 8 ∧
    UpdateQuality [0] (heapOf [Item.mk "Elixir of the Mongoose" 0 0]) 0
      = Item.mk "Elixir of the Mongoose" (-1) 0 ∧
    UpdateQuality [0] (heapOf [Item.mk "Conjured Mana Cake" 0 1]) 0
      = Item.mk "Conjured Mana Cake" (-1) 0 ∧
    UpdateQuality [0] (heapOf [Item.mk "Conjured Mana Cake" 3 6]) 0
      = Item.mk "Conjured Mana Cake" 2 4 ∧
    UpdateQuality [0] (heapOf [Item.mk "Conjured Mana Cake" 0 6]) 0
      = Item.mk "Conjured Mana Cake" (-1) 2 ∧
    UpdateQuality [0] (heapOf [Item.mk "Conjured Mana Cake" 0 3]) 0
      = Item.mk "Conjured Mana Cake" (-1) 0 ∧
    UpdateQuality [0] (heapOf [Item.mk "Conjured Mana Cake" 0 2]) 0
      = Item.mk "Conjured Mana Cake" (-1) 0 := by
  decide

theorem source_tests_special_items :
    UpdateQuality [0] (heapOf [Item.mk "Aged Brie" 2 0]) 0 = Item.mk "Aged Brie" 1 1 ∧
    UpdateQuality [0] (heapOf [Item.mk "Aged Brie" 0 0]) 0 = Item.mk "Aged Brie" (-1) 2 ∧
    UpdateQuality [0] (heapOf [Item.mk "Aged Brie" 2 50]) 0 = Item.mk "Aged Brie" 1 50 ∧
    UpdateQuality [0] (heapOf [Item.mk "Aged Brie" (-1) 50]) 0 = Item.mk "Aged Brie" (-2) 50 ∧
    UpdateQuality [0] (heapOf [Item.mk "Backstage passes to a TAFKAL80ETC concert" 10 20]) 0
      = Item.mk "Backstage passes to a TAFKAL80ETC concert" 9 22 ∧
    UpdateQuality [0] (heapOf [Item.mk "Backstage passes to a TAFKAL80ETC concert" 5 20]) 0
      = Item.mk "Backstage passes to a TAFKAL80ETC concert" 4 23 ∧
    UpdateQuality [0] (heapOf [Item.mk "Backstage passes to a TAFKAL80ETC concert" 5 50]) 0
      = Item.mk "Backstage passes to a TAFKAL80ETC concert" 4 50 ∧
    UpdateQuality [0] (heapOf [Item.mk "Backstage passes to a TAFKAL80ETC concert" 0 20]) 0
      = Item.mk "Backstage passes to a TAFKAL80ETC concert" (-1) 0 ∧
    UpdateQuality [0] (heapOf [Item.mk "Backstage passes to a TAFKAL80ETC concert" 5 49]) 0
      = Item.mk "Backstage passes to a TAFKAL80ETC concert" 4 50 ∧
    UpdateQuality [0] (heapOf [Item.mk "Sulfuras, Hand of Ragnaros" 0 80]) 0
      = Item.mk "Sulfuras, Hand of Ragnaros" 0 80 ∧
    UpdateQuality [0] (heapOf [Item.mk "Sulfuras, Hand of Ragnaros" 5 80]) 0
      = Item.mk "Sulfuras, Hand of Ragnaros" 5 80 := by
  decide

/-! ## Claims -/

/-- C1. An item that is not Sulfuras and whose Quality lies in `[0, 50]` before the
first call still has its Quality in `[0, 50]` after any number `n` of successive
`UpdateQuality` calls, whatever its SellIn, wherever and however often its address
stands in the slice. -/
theorem C1_quality_stays_within_bounds (heap : Heap) (items : List Ptr) (n : Nat) (p : Ptr)
    (hname : (heap p).Name ≠ "Sulfuras, Hand of Ragnaros")
    (hlo : 0 ≤ (heap p).Quality) (hhi : (heap p).Quality ≤ 50) :
    0 ≤ ((UpdateQuality items)^[n] heap p).Quality ∧
    ((UpdateQuality items)^[n] heap p).Quality ≤ 50 := by
  rw [iterate_UpdateQuality_apply]
  exact iterate_updateItem_Quality_range _ _ (isSulfuras_false_of_ne _ hname) hlo hhi

/-- C1 at a concrete inventory: the Aged Brie at address 1 (held twice by the slice),
after 60 calls. -/
theorem C1_quality_stays_within_bounds_witness :
    (heapOf [Item.mk "Conjured Mana Cake" 3 6, Item.mk "Aged Brie" 2 0] 1).Name
      ≠ "Sulfuras, Hand of Ragnaros" ∧
    0 ≤ (heapOf [Item.mk "Conjured Mana Cake" 3 6, Item.mk "Aged Brie" 2 0] 1).Quality ∧
    (heapOf [Item.mk "Conjured Mana Cake" 3 6, Item.mk "Aged Brie" 2 0] 1).Quality ≤ 50 ∧
    0 ≤ ((UpdateQuality [0, 1, 1])^[60]
      (heapOf [Item.mk "Conjured Mana Cake" 3 6, Item.mk "Aged Brie" 2 0]) 1).Quality ∧
    ((UpdateQuality [0, 1, 1])^[60]
      (heapOf [Item.mk "Conjured Mana Cake" 3 6, Item.mk "Aged Brie" 2 0]) 1).Quality ≤ 50 :=
  ⟨by decide, by decide, by decide,
    C1_quality_stays_within_bounds
      (heapOf [Item.mk "Conjured Mana Cake" 3 6, Item.mk "Aged Brie" 2 0]) [0, 1, 1] 60 1
      (by decide) (by decide) (by decide)⟩

/-- C2. A Sulfuras item keeps its Name, SellIn and Quality through any number `n` of
successive `UpdateQuality` calls, whatever the SellIn and Quality are. -/
theorem C2_sulfuras_is_frozen (heap : Heap) (items : List Ptr) (n : Nat) (p : Ptr)
    (hname : (heap p).Name = "Sulfuras, Hand of Ragnaros") :
    ((UpdateQuality items)^[n] heap p).Name = (heap p).Name ∧
    ((UpdateQuality items)^[n] heap p).SellIn = (heap p).SellIn ∧
    ((UpdateQuality items)^[n] heap p).Quality = (heap p).Quality := by
  rw [iterate_UpdateQuality_apply,
    iterate_updateItem_sulfuras _ _ ((isSulfuras_iff _).2 hname)]
  exact ⟨rfl, rfl, rfl⟩

/-- C2 at a concrete inventory: Sulfuras with Quality 80, after 7 calls. -/
theorem C2_sulfuras_is_frozen_witness :
    (heapOf [Item.mk "Sulfuras, Hand of Ragnaros" (-1) 80] 0).Name
      = "Sulfuras, Hand of Ragnaros" ∧
    ((UpdateQuality [0])^[7] (heapOf [Item.mk "Sulfuras, Hand of Ragnaros" (-1) 80]) 0).Name
      = (heapOf [Item.mk "Sulfuras, Hand of Ragnaros" (-1) 80] 0).Name ∧
    ((UpdateQuality [0])^[7] (heapOf [Item.mk "Sulfuras, Hand of Ragnaros" (-1) 80]) 0).SellIn
      = (heapOf [Item.mk "Sulfuras, Hand of Ragnaros" (-1) 80] 0).SellIn ∧
    ((UpdateQuality [0])^[7] (heapOf [Item.mk "Sulfuras, Hand of Ragnaros" (-1) 80]) 0).Quality
      = (heapOf [Item.mk "Sulfuras, Hand of Ragnaros" (-1) 80] 0).Quality :=
  ⟨rfl, C2_sulfuras_is_frozen (heapOf [Item.mk "Sulfuras, Hand of Ragnaros" (-1) 80]) [0] 7 0
    rfl⟩

/-- C3, as stated, fails: an item whose address stands twice in the slice is updated
twice by one call, so a SellIn of 5 becomes 3, not `5 - 1`. -/
theorem C3_counterexample :
    (heapOf [Item.mk "Elixir of the Mongoose" 5 10] 0).Name ≠ "Sulfuras, Hand of Ragnaros" ∧
    (heapOf [Item.mk "Elixir of the Mongoose" 5 10] 0).SellIn = 5 ∧
    UpdateQuality [0, 0] (heapOf [Item.mk "Elixir of the Mongoose" 5 10]) 0
      = Item.mk "Elixir of the Mongoose" 3 8 ∧
    (UpdateQuality [0, 0] (heapOf [Item.mk "Elixir of the Mongoose" 5 10]) 0).SellIn ≠ 5 - 1 := by
  decide

/-- C3, amended. For an item that is not Sulfuras and whose address stands at exactly
one position of the slice, with SellIn `s`, one `UpdateQuality` call leaves SellIn
equal to `s - 1` and `n` successive calls leave it equal to `s - n`, the arithmetic
being that of unbounded integers: as long as the result is a value of `int`. -/
theorem C3_sellIn_decreases_by_one (heap : Heap) (items : List Ptr) (n : Nat) (p : Ptr)
    (hcount : items.count p = 1)
    (hname : (heap p).Name ≠ "Sulfuras, Hand of Ragnaros")
    (hs : (heap p).SellIn ≤ maxInt) :
    (minInt ≤ (heap p).SellIn - 1 →
      (UpdateQuality items heap p).SellIn = (heap p).SellIn - 1) ∧
    (minInt ≤ (heap p).SellIn - (n : Int) →
      ((UpdateQuality items)^[n] heap p).SellIn = (heap p).SellIn - (n : Int)) := by
  have hsulf := isSulfuras_false_of_ne _ hname
  constructor
  · intro h
    rw [UpdateQuality_apply, hcount]
    exact iterate_updateItem_SellIn 1 _ hsulf (by push_cast; exact h) hs
  · intro h
    rw [iterate_UpdateQuality_apply, hcount, Nat.mul_one]
    exact iterate_updateItem_SellIn n _ hsulf h hs

/-- C3 amended, at a concrete inventory: an already expired item, after 1 and after 4
calls. -/
theorem C3_sellIn_decreases_by_one_witness :
    [0, 1].count 1 = 1 ∧
    (heapOf [Item.mk "Aged Brie" 2 0, Item.mk "Elixir of the Mongoose" (-3) 7] 1).Name
      ≠ "Sulfuras, Hand of Ragnaros" ∧
    (heapOf [Item.mk "Aged Brie" 2 0, Item.mk "Elixir of the Mongoose" (-3) 7] 1).SellIn
      ≤ maxInt ∧
    (minInt ≤ (heapOf [Item.mk "Aged Brie" 2 0,
        Item.mk "Elixir of the Mongoose" (-3) 7] 1).SellIn - 1 →
      (UpdateQuality [0, 1] (heapOf [Item.mk "Aged Brie" 2 0,
        Item.mk "Elixir of the Mongoose" (-3) 7]) 1).SellIn
      = (heapOf [Item.mk "Aged Brie" 2 0, Item.mk "Elixir of the Mongoose" (-3) 7] 1).SellIn
        - 1) ∧
    (minInt ≤ (heapOf [Item.mk "Aged Brie" 2 0,
        Item.mk "Elixir of the Mongoose" (-3) 7] 1).SellIn - ((4 : Nat) : Int) →
      ((UpdateQuality [0, 1])^[4] (heapOf [Item.mk "Aged Brie" 2 0,
        Item.mk "Elixir of the Mongoose" (-3) 7]) 1).SellIn
      = (heapOf [Item.mk "Aged Brie" 2 0, Item.mk "Elixir of the Mongoose" (-3) 7] 1).SellIn
        - ((4 : Nat) : Int)) :=
  ⟨by decide, by decide, by decide,
    C3_sellIn_decreases_by_one
      (heapOf [Item.mk "Aged Brie" 2 0, Item.mk "Elixir of the Mongoose" (-3) 7]) [0, 1] 4 1
      (by decide) (by decide) (by decide)⟩

/-- C4, the code at the failing input. A Backstage pass with SellIn `minInt` (`≤ 0`)
and Quality 20: `SellIn--` wraps around to `maxInt`, the test `SellIn < 0` fails,
`handleExpired` is not called, and one `UpdateQuality` call leaves Quality 23 where
the claim says 0. -/
theorem C4_backstage_at_least_sellIn :
    (heapOf [Item.mk "Backstage passes to a TAFKAL80ETC concert" (-9223372036854775808) 20]
      0).SellIn = minInt ∧
    (heapOf [Item.mk "Backstage passes to a TAFKAL80ETC concert" (-9223372036854775808) 20]
      0).SellIn ≤ 0 ∧
    UpdateQuality [0]
      (heapOf [Item.mk "Backstage passes to a TAFKAL80ETC concert" (-9223372036854775808) 20])
      0 = Item.mk "Backstage passes to a TAFKAL80ETC concert" 9223372036854775807 23 ∧
    (UpdateQuality [0]
      (heapOf [Item.mk "Backstage passes to a TAFKAL80ETC concert" (-9223372036854775808) 20])
      0).Quality ≠ 0 := by
  decide

/-- C5, as stated, fails twice over. A pass 11 days out whose address stands twice in
the slice is updated twice by one call and goes from Quality 20 to 23, not
`min 50 (20 + 1)`. And at Quality `maxInt` the addition wraps around to `minInt`,
which the cap at 50 lets through, where the claim says 50. -/
theorem C5_counterexample :
    UpdateQuality [0, 0]
      (heapOf [Item.mk "Backstage passes to a TAFKAL80ETC concert" 11 20]) 0
      = Item.mk "Backstage passes to a TAFKAL80ETC concert" 9 23 ∧
    (23 : Int) ≠ min 50 (20 + 1) ∧
    UpdateQuality [0]
      (heapOf [Item.mk "Backstage passes to a TAFKAL80ETC concert" 11 9223372036854775807]) 0
      = Item.mk "Backstage passes to a TAFKAL80ETC concert" 10 (-9223372036854775808) ∧
    (-9223372036854775808 : Int) ≠ min 50 (9223372036854775807 + 1) := by
  decide

/-- C5, amended. A Backstage pass whose address stands at exactly one position of the
slice, with Quality `q` below the greatest `int` and SellIn `s > 0` before the call
(both values of `int`), has, after one `UpdateQuality` call, Quality
`min 50 (q + 1)` when `s > 10`,
`min 50 (q + 2)` when `6 ≤ s ≤ 10` and `min 50 (q + 3)` when `1 ≤ s ≤ 5`; `s` is the
SellIn before the decrement. -/
theorem C5_backstage_before_concert (heap : Heap) (items : List Ptr) (p : Ptr)
    (hcount : items.count p = 1)
    (hname : (heap p).Name = "Backstage passes to a TAFKAL80ETC concert")
    (htyped : (heap p).WellTyped)
    (hq : (heap p).Quality < maxInt)
    (hs : 0 < (heap p).SellIn) :
    (10 < (heap p).SellIn →
      (UpdateQuality items heap p).Quality = min 50 ((heap p).Quality + 1)) ∧
    (6 ≤ (heap p).SellIn ∧ (heap p).SellIn ≤ 10 →
      (UpdateQuality items heap p).Quality = min 50 ((heap p).Quality + 2)) ∧
    (1 ≤ (heap p).SellIn ∧ (heap p).SellIn ≤ 5 →
      (UpdateQuality items heap p).Quality = min 50 ((heap p).Quality + 3)) := by
  obtain ⟨⟨-, hs₂⟩, ⟨hq₁, -⟩⟩ := htyped
  have hone : UpdateQuality items heap p = updateItem (heap p) := by
    rw [UpdateQuality_apply, hcount]; rfl
  have hq' : (updateItem (heap p)).Quality = (updateQuality (heap p)).Quality := by
    rw [updateItem_Quality_backstage _ hname,
      wrapInt_pred _ (by unfold minInt; omega) hs₂, if_neg (by omega)]
  have hq2 := updateQuality_Quality_backstage_exact _ hname hq₁ hq
  refine ⟨fun h => ?_, fun h => ?_, fun h => ?_⟩
  · rw [hone, hq', hq2, if_neg (by omega), if_neg (by omega)]
  · rw [hone, hq', hq2, if_neg (by omega), if_pos h.2]
  · rw [hone, hq', hq2, if_pos h.2]

/-- C5 amended, at a concrete inventory: five days before the concert, Quality 49 is
capped. -/
theorem C5_backstage_before_concert_witness :
    [0].count 0 = 1 ∧
    (heapOf [Item.mk "Backstage passes to a TAFKAL80ETC concert" 5 49] 0).Name
      = "Backstage passes to a TAFKAL80ETC concert" ∧
    (heapOf [Item.mk "Backstage passes to a TAFKAL80ETC concert" 5 49] 0).WellTyped ∧
    (heapOf [Item.mk "Backstage passes to a TAFKAL80ETC concert" 5 49] 0).Quality < maxInt ∧
    0 < (heapOf [Item.mk "Backstage passes to a TAFKAL80ETC concert" 5 49] 0).SellIn ∧
    (UpdateQuality [0] (heapOf [Item.mk "Backstage passes to a TAFKAL80ETC concert" 5 49])
      0).Quality = min 50 (49 + 3) :=
  ⟨by decide, rfl, by decide, by decide, by decide,
    (C5_backstage_before_concert
      (heapOf [Item.mk "Backstage passes to a TAFKAL80ETC concert" 5 49]) [0] 0
      (by decide) rfl (by decide) (by decide) (by decide)).2.2 (by decide)⟩

/-- C6, as stated, fails three times over. A Normal item whose address stands twice
in the slice is updated twice by one call and goes from Quality 10 to 8, not
`max 0 (10 - 1)`. At Quality `minInt` the subtraction wraps around to `maxInt`,
which the floor at 0 lets through, where the claim says 0. And at SellIn `minInt`
(`≤ 0`) `SellIn--` wraps around to `maxInt`, the item is not taken as expired and
goes from Quality 10 to 9, not `max 0 (10 - 2)`. -/
theorem C6_counterexample :
    UpdateQuality [0, 0] (heapOf [Item.mk "Elixir of the Mongoose" 5 10]) 0
      = Item.mk "Elixir of the Mongoose" 3 8 ∧
    (8 : Int) ≠ max 0 (10 - 1) ∧
    UpdateQuality [0] (heapOf [Item.mk "Elixir of the Mongoose" 5 (-9223372036854775808)]) 0
      = Item.mk "Elixir of the Mongoose" 4 9223372036854775807 ∧
    (9223372036854775807 : Int) ≠ max 0 (-9223372036854775808 - 1) ∧
    UpdateQuality [0] (heapOf [Item.mk "Elixir of the Mongoose" (-9223372036854775808) 10]) 0
      = Item.mk "Elixir of the Mongoose" 9223372036854775807 9 ∧
    (9 : Int) ≠ max 0 (10 - 2) := by
  decide

/-- C6, amended. An item whose Name is none of the three exact-match names and does
not start with "Conjured", whose address stands at exactly one position of the slice,
and whose Quality `q` and SellIn `s` before the call are values of `int`, both above
the least one, has, after one `UpdateQuality` call, Quality `max 0 (q - 1)` when `s > 0` and
`max 0 (q - 2)` when `s ≤ 0`. -/
theorem C6_normal_item_degrades (heap : Heap) (items : List Ptr) (p : Ptr)
    (hcount : items.count p = 1)
    (hsulfuras : (heap p).Name ≠ "Sulfuras, Hand of Ragnaros")
    (hbrie : (heap p).Name ≠ "Aged Brie")
    (hpass : (heap p).Name ≠ "Backstage passes to a TAFKAL80ETC concert")
    (hconj : ¬ StartsWith (heap p).Name "Conjured")
    (htyped : (heap p).WellTyped)
    (hq : minInt < (heap p).Quality) (hs : minInt < (heap p).SellIn) :
    (0 < (heap p).SellIn →
      (UpdateQuality items heap p).Quality = max 0 ((heap p).Quality - 1)) ∧
    ((heap p).SellIn ≤ 0 →
      (UpdateQuality items heap p).Quality = max 0 ((heap p).Quality - 2)) := by
  obtain ⟨⟨-, hs₂⟩, ⟨-, hq₂⟩⟩ := htyped
  have hone : UpdateQuality items heap p = updateItem (heap p) := by
    rw [UpdateQuality_apply, hcount]; rfl
  have hq' := updateItem_Quality_normal_exact _ (isSulfuras_false_of_ne _ hsulfuras)
    (isAgedBrie_false_of_ne _ hbrie) (isBackstagePass_false_of_ne _ hpass)
    (isConjured_false_of_not _ hconj) hs hs₂ hq hq₂
  refine ⟨fun h => ?_, fun h => ?_⟩
  · rw [hone, hq', if_pos h]
  · rw [hone, hq', if_neg (by omega)]

/-- C6 amended, at a concrete inventory: "conjured Mana Cake", lower-case, is a Normal
item. -/
theorem C6_normal_item_degrades_witness :
    [0].count 0 = 1 ∧
    (heapOf [Item.mk "conjured Mana Cake" 0 6] 0).Name ≠ "Sulfuras, Hand of Ragnaros" ∧
    (heapOf [Item.mk "conjured Mana Cake" 0 6] 0).Name ≠ "Aged Brie" ∧
    (heapOf [Item.mk "conjured Mana Cake" 0 6] 0).Name
      ≠ "Backstage passes to a TAFKAL80ETC concert" ∧
    ¬ StartsWith (heapOf [Item.mk "conjured Mana Cake" 0 6] 0).Name "Conjured" ∧
    (heapOf [Item.mk "conjured Mana Cake" 0 6] 0).WellTyped ∧
    minInt < (heapOf [Item.mk "conjured Mana Cake" 0 6] 0).Quality ∧
    minInt < (heapOf [Item.mk "conjured Mana Cake" 0 6] 0).SellIn ∧
    (UpdateQuality [0] (heapOf [Item.mk "conjured Mana Cake" 0 6]) 0).Quality
      = max 0 (6 - 2) :=
  ⟨by decide, by decide, by decide, by decide,
    fun h => absurd ((HasPrefix_iff _ _).2 h) (by decide), by decide, by decide, by decide,
    (C6_normal_item_degrades (heapOf [Item.mk "conjured Mana Cake" 0 6]) [0] 0
      (by decide) (by decide) (by decide) (by decide)
      (fun h => absurd ((HasPrefix_iff _ _).2 h) (by decide))
      (by decide) (by decide) (by decide)).2 (by decide)⟩

/-- C7, as stated, fails three times over. A Conjured item whose address stands twice
in the slice is updated twice by one call and goes from Quality 10 to 6, not
`max 0 (10 - 2)`. At Quality `minInt` the subtraction wraps around to `maxInt - 1`,
which the floor at 0 lets through, where the claim says 0. And at SellIn `minInt`
(`≤ 0`) `SellIn--` wraps around to `maxInt`, the item is not taken as expired and
goes from Quality 10 to 8, not `max 0 (10 - 4)`. -/
theorem C7_counterexample :
    UpdateQuality [0, 0] (heapOf [Item.mk "Conjured Mana Cake" 5 10]) 0
      = Item.mk "Conjured Mana Cake" 3 6 ∧
    (6 : Int) ≠ max 0 (10 - 2) ∧
    UpdateQuality [0] (heapOf [Item.mk "Conjured Mana Cake" 5 (-9223372036854775808)]) 0
      = Item.mk "Conjured Mana Cake" 4 9223372036854775806 ∧
    (9223372036854775806 : Int) ≠ max 0 (-9223372036854775808 - 2) ∧
    UpdateQuality [0] (heapOf [Item.mk "Conjured Mana Cake" (-9223372036854775808) 10]) 0
      = Item.mk "Conjured Mana Cake" 9223372036854775807 8 ∧
    (8 : Int) ≠ max 0 (10 - 4) := by
  decide

/-- C7, amended. An item whose Name starts with the case-sensitive prefix "Conjured"
at position 0, whose address stands at exactly one position of the slice, whose
Quality `q` before the call is at least `minInt + 2` and whose SellIn `s` is above
the least `int` (both values of `int`), has, after one `UpdateQuality` call, Quality `max 0 (q - 2)` when
`s > 0` and `max 0 (q - 4)` when `s ≤ 0`. -/
theorem C7_conjured_item_degrades (heap : Heap) (items : List Ptr) (p : Ptr)
    (hcount : items.count p = 1)
    (hconj : StartsWith (heap p).Name "Conjured")
    (htyped : (heap p).WellTyped)
    (hq : minInt + 2 ≤ (heap p).Quality) (hs : minInt < (heap p).SellIn) :
    (0 < (heap p).SellIn →
      (UpdateQuality items heap p).Quality = max 0 ((heap p).Quality - 2)) ∧
    ((heap p).SellIn ≤ 0 →
      (UpdateQuality items heap p).Quality = max 0 ((heap p).Quality - 4)) := by
  obtain ⟨⟨-, hs₂⟩, ⟨-, hq₂⟩⟩ := htyped
  have hone : UpdateQuality items heap p = updateItem (heap p) := by
    rw [UpdateQuality_apply, hcount]; rfl
  have hq' := updateItem_Quality_conjured_exact _ ((isConjured_iff _).2 hconj) hs hs₂ hq hq₂
  refine ⟨fun h => ?_, fun h => ?_⟩
  · rw [hone, hq', if_pos h]
  · rw [hone, hq', if_neg (by omega)]

/-- C7 amended, at a concrete inventory: the Conjured Mana Cake of the source's test. -/
theorem C7_conjured_item_degrades_witness :
    [0].count 0 = 1 ∧
    StartsWith (heapOf [Item.mk "Conjured Mana Cake" 0 3] 0).Name "Conjured" ∧
    (heapOf [Item.mk "Conjured Mana Cake" 0 3] 0).WellTyped ∧
    minInt + 2 ≤ (heapOf [Item.mk "Conjured Mana Cake" 0 3] 0).Quality ∧
    minInt < (heapOf [Item.mk "Conjured Mana Cake" 0 3] 0).SellIn ∧
    (UpdateQuality [0] (heapOf [Item.mk "Conjured Mana Cake" 0 3]) 0).Quality
      = max 0 (3 - 4) :=
  ⟨by decide, ⟨" Mana Cake", by decide⟩, by decide, by decide, by decide,
    (C7_conjured_item_degrades (heapOf [Item.mk "Conjured Mana Cake" 0 3]) [0] 0
      (by decide) ⟨" Mana Cake", by decide⟩ (by decide) (by decide) (by decide)).2
      (by decide)⟩

/-- C8, as stated, fails three times over. An Aged Brie whose address stands twice in
the slice is updated twice by one call and goes from Quality 10 to 12, not
`min 50 (10 + 1)`. At Quality `maxInt` the addition wraps around to `minInt`, which
the cap at 50 lets through, where the claim says 50. And at SellIn `minInt` (`≤ 0`)
`SellIn--` wraps around to `maxInt`, the item is not taken as expired and goes from
Quality 10 to 11, not `min 50 (10 + 2)`. -/
theorem C8_counterexample :
    UpdateQuality [0, 0] (heapOf [Item.mk "Aged Brie" 5 10]) 0 = Item.mk "Aged Brie" 3 12 ∧
    (12 : Int) ≠ min 50 (10 + 1) ∧
    UpdateQuality [0] (heapOf [Item.mk "Aged Brie" 5 9223372036854775807]) 0
      = Item.mk "Aged Brie" 4 (-9223372036854775808) ∧
    (-9223372036854775808 : Int) ≠ min 50 (9223372036854775807 + 1) ∧
    UpdateQuality [0] (heapOf [Item.mk "Aged Brie" (-9223372036854775808) 10]) 0
      = Item.mk "Aged Brie" 9223372036854775807 11 ∧
    (11 : Int) ≠ min 50 (10 + 2) := by
  decide

/-- C8, amended. An Aged Brie whose address stands at exactly one position of the
slice, with Quality `q` below the greatest `int` and SellIn `s` above the least
`int` before the call (both values of `int`), has, after one `UpdateQuality` call, Quality `min 50 (q + 1)`
when `s > 0` and `min 50 (q + 2)` when `s ≤ 0`. -/
theorem C8_aged_brie_improves (heap : Heap) (items : List Ptr) (p : Ptr)
    (hcount : items.count p = 1)
    (hname : (heap p).Name = "Aged Brie")
    (htyped : (heap p).WellTyped)
    (hq : (heap p).Quality < maxInt) (hs : minInt < (heap p).SellIn) :
    (0 < (heap p).SellIn →
      (UpdateQuality items heap p).Quality = min 50 ((heap p).Quality + 1)) ∧
    ((heap p).SellIn ≤ 0 →
      (UpdateQuality items heap p).Quality = min 50 ((heap p).Quality + 2)) := by
  obtain ⟨⟨-, hs₂⟩, ⟨hq₁, -⟩⟩ := htyped
  have hone : UpdateQuality items heap p = updateItem (heap p) := by
    rw [UpdateQuality_apply, hcount]; rfl
  have hq' := updateItem_Quality_agedBrie_exact _ hname hs hs₂ hq₁ hq
  refine ⟨fun h => ?_, fun h => ?_⟩
  · rw [hone, hq', if_pos h]
  · rw [hone, hq', if_neg (by omega)]

/-- C8 amended, at a concrete inventory: an expired Aged Brie at Quality 49 is capped
at 50. -/
theorem C8_aged_brie_improves_witness :
    [0].count 0 = 1 ∧
    (heapOf [Item.mk "Aged Brie" (-1) 49] 0).Name = "Aged Brie" ∧
    (heapOf [Item.mk "Aged Brie" (-1) 49] 0).WellTyped ∧
    (heapOf [Item.mk "Aged Brie" (-1) 49] 0).Quality < maxInt ∧
    minInt < (heapOf [Item.mk "Aged Brie" (-1) 49] 0).SellIn ∧
    (UpdateQuality [0] (heapOf [Item.mk "Aged Brie" (-1) 49]) 0).Quality = min 50 (49 + 2) :=
  ⟨by decide, rfl, by decide, by decide, by decide,
    (C8_aged_brie_improves (heapOf [Item.mk "Aged Brie" (-1) 49]) [0] 0
      (by decide) rfl (by decide) (by decide) (by decide)).2 (by decide)⟩

/-- C9, as stated, fails: one call takes a Normal item of Quality 100 to Quality 99,
above 50, and an Aged Brie of Quality -10 to Quality -9, below 0. -/
theorem C9_counterexample :
    (heapOf [Item.mk "Elixir of the Mongoose" 5 100] 0).Name ≠ "Sulfuras, Hand of Ragnaros" ∧
    (UpdateQuality [0])^[1] (heapOf [Item.mk "Elixir of the Mongoose" 5 100]) 0
      = Item.mk "Elixir of the Mongoose" 4 99 ∧
    ¬ ((Item.mk "Elixir of the Mongoose" 4 99).Quality ≤ 50) ∧
    (heapOf [Item.mk "Aged Brie" 5 (-10)] 0).Name ≠ "Sulfuras, Hand of Ragnaros" ∧
    (UpdateQuality [0])^[1] (heapOf [Item.mk "Aged Brie" 5 (-10)]) 0
      = Item.mk "Aged Brie" 4 (-9) ∧
    ¬ (0 ≤ (Item.mk "Aged Brie" 4 (-9)).Quality) := by
  decide

/-- C9, amended. For an item of the slice that is not Sulfuras, with any SellIn and
any Quality `q` before the first call, and any `n ≥ 1`, the Quality after `n`
successive `UpdateQuality` calls is `≤ 50` if the item is an Aged Brie or a Backstage
pass, or if `minInt + 2 ≤ q ≤ 50`; and it is `≥ 0` if the item is neither an Aged
Brie nor a Backstage pass, or if `0 ≤ q < maxInt`. -/
theorem C9_one_sided_clamping (heap : Heap) (items : List Ptr) (i n : Nat) (p : Ptr)
    (hget : items[i]? = some p)
    (hname : (heap p).Name ≠ "Sulfuras, Hand of Ragnaros")
    (hn : 1 ≤ n) :
    ((heap p).Name = "Aged Brie" ∨
        (heap p).Name = "Backstage passes to a TAFKAL80ETC concert" ∨
        (minInt + 2 ≤ (heap p).Quality ∧ (heap p).Quality ≤ 50) →
      ((UpdateQuality items)^[n] heap p).Quality ≤ 50) ∧
    (((heap p).Name ≠ "Aged Brie" ∧
          (heap p).Name ≠ "Backstage passes to a TAFKAL80ETC concert") ∨
        (0 ≤ (heap p).Quality ∧ (heap p).Quality < maxInt) →
      0 ≤ ((UpdateQuality items)^[n] heap p).Quality) := by
  have hs := isSulfuras_false_of_ne _ hname
  have hpos := count_pos_of_getElem? items i p hget
  have hN : 1 ≤ n * items.count p := Nat.mul_pos (by omega) hpos
  have hb := iterate_updateItem_Quality_bounds (n * items.count p) (heap p) hs hN
  rw [iterate_UpdateQuality_apply]
  refine ⟨fun h => ?_, fun h => ?_⟩
  · rcases h with h | h | h
    · exact hb.1 (Or.inl ((isAgedBrie_iff _).2 h))
    · exact hb.1 (Or.inr ((isBackstagePass_iff _).2 h))
    · exact hb.2.2.1 h.1 h.2
  · rcases h with h | h
    · exact hb.2.1 ⟨isAgedBrie_false_of_ne _ h.1, isBackstagePass_false_of_ne _ h.2⟩
    · exact hb.2.2.2 h.1 h.2

/-- C9 amended, at a concrete inventory: a Backstage pass of Quality 70, after 2 calls. -/
theorem C9_one_sided_clamping_witness :
    [0][0]? = some 0 ∧
    (heapOf [Item.mk "Backstage passes to a TAFKAL80ETC concert" 12 70] 0).Name
      ≠ "Sulfuras, Hand of Ragnaros" ∧
    1 ≤ 2 ∧
    ((UpdateQuality [0])^[2]
      (heapOf [Item.mk "Backstage passes to a TAFKAL80ETC concert" 12 70]) 0).Quality ≤ 50 ∧
    0 ≤ ((UpdateQuality [0])^[2]
      (heapOf [Item.mk "Backstage passes to a TAFKAL80ETC concert" 12 70]) 0).Quality :=
  ⟨rfl, by decide, by decide,
    (C9_one_sided_clamping
      (heapOf [Item.mk "Backstage passes to a TAFKAL80ETC concert" 12 70]) [0] 0 2 0
      rfl (by decide) (by decide)).1 (Or.inr (Or.inl rfl)),
    (C9_one_sided_clamping
      (heapOf [Item.mk "Backstage passes to a TAFKAL80ETC concert" 12 70]) [0] 0 2 0
      rfl (by decide) (by decide)).2 (Or.inr (by decide))⟩

/-- C10. `UpdateQuality` leaves the slice as it is and assigns no Name: the items seen
through the slice after the call are as many as before, in the same order, and the
item at every index, like the item at every address, has the Name it had before the
call. Only SellIn and Quality can change. -/
theorem C10_names_and_length_preserved (heap : Heap) (items : List Ptr) :
    (items.map (UpdateQuality items heap)).length = (items.map heap).length ∧
    (items.map (UpdateQuality items heap)).map Item.Name = (items.map heap).map Item.Name ∧
    (∀ i : Nat, ((items.map (UpdateQuality items heap))[i]?).map Item.Name
      = ((items.map heap)[i]?).map Item.Name) ∧
    ∀ p : Ptr, (UpdateQuality items heap p).Name = (heap p).Name := by
  have hall : ∀ p : Ptr, (UpdateQuality items heap p).Name = (heap p).Name := by
    intro p
    rw [UpdateQuality_apply]
    exact iterate_updateItem_Name _ _
  have hmap : (items.map (UpdateQuality items heap)).map Item.Name
      = (items.map heap).map Item.Name := by
    rw [List.map_map, List.map_map]
    exact List.map_congr_left (fun p _ => hall p)
  refine ⟨?_, hmap, fun i => ?_, hall⟩
  · rw [List.length_map, List.length_map]
  · rw [← List.getElem?_map, ← List.getElem?_map, hmap]

/-- C11, as stated, fails: the slices `[0, 0]` and `[1, 0]` have equal length and hold
the same item (the item at address 0) at index 1, yet after one `UpdateQuality` call
that item is `(3, 8)` for the first slice, where it is updated twice, and `(4, 9)`
for the second: the result depends on the other element of the slice. -/
theorem C11_counterexample :
    [0, 0].length = [1, 0].length ∧
    ([0, 0].map (heapOf [Item.mk "Elixir of the Mongoose" 5 10, Item.mk "Aged Brie" 2 0]))[1]?
      = ([1, 0].map
          (heapOf [Item.mk "Elixir of the Mongoose" 5 10, Item.mk "Aged Brie" 2 0]))[1]? ∧
    ([0, 0].map (UpdateQuality [0, 0]
        (heapOf [Item.mk "Elixir of the Mongoose" 5 10, Item.mk "Aged Brie" 2 0])))[1]?
      = some (Item.mk "Elixir of the Mongoose" 3 8) ∧
    ([1, 0].map (UpdateQuality [1, 0]
        (heapOf [Item.mk "Elixir of the Mongoose" 5 10, Item.mk "Aged Brie" 2 0])))[1]?
      = some (Item.mk "Elixir of the Mongoose" 4 9) ∧
    Item.mk "Elixir of the Mongoose" 3 8 ≠ Item.mk "Elixir of the Mongoose" 4 9 ∧
    Item.mk "Elixir of the Mongoose" 3 8
      ≠ updateItem (Item.mk "Elixir of the Mongoose" 5 10) := by
  decide

/-- C11, amended. The item at an address after `UpdateQuality` depends only on that
item and on the number `c` of positions of the slice that hold its address: it is
`updateItem` applied `c` times to the item. So two slices (of any lengths, over any
heaps) that hold the same item at index `i`, each holding its address equally often,
hold the same item at index `i` afterwards; and an item whose address stands at
exactly one position of its slice becomes `updateItem` of it, whatever the other
items are and wherever it stands. -/
theorem C11_item_update_is_independent (heap₁ heap₂ : Heap) (items₁ items₂ : List Ptr)
    (i : Nat) (p₁ p₂ : Ptr)
    (h₁ : items₁[i]? = some p₁) (h₂ : items₂[i]? = some p₂)
    (hitem : heap₁ p₁ = heap₂ p₂)
    (hcount : items₁.count p₁ = items₂.count p₂) :
    (items₁.map (UpdateQuality items₁ heap₁))[i]?
      = (items₂.map (UpdateQuality items₂ heap₂))[i]? ∧
    UpdateQuality items₁ heap₁ p₁ = updateItem^[items₁.count p₁] (heap₁ p₁) ∧
    (items₁.count p₁ = 1 →
      (items₁.map (UpdateQuality items₁ heap₁))[i]? = some (updateItem (heap₁ p₁)) ∧
      (items₂.map (UpdateQuality items₂ heap₂))[i]? = some (updateItem (heap₁ p₁))) := by
  have e₁ : (items₁.map (UpdateQuality items₁ heap₁))[i]?
      = some (updateItem^[items₁.count p₁] (heap₁ p₁)) := by
    rw [List.getElem?_map, h₁, Option.map_some', UpdateQuality_apply]
  have e₂ : (items₂.map (UpdateQuality items₂ heap₂))[i]?
      = some (updateItem^[items₁.count p₁] (heap₁ p₁)) := by
    rw [List.getElem?_map, h₂, Option.map_some', UpdateQuality_apply, hcount, hitem]
  refine ⟨e₁.trans e₂.symm, UpdateQuality_apply items₁ heap₁ p₁, fun hone => ?_⟩
  rw [e₁, e₂, hone]
  exact ⟨rfl, rfl⟩

/-- C11 amended, at two concrete inventories that share the item at index 1 and differ
at index 0. -/
theorem C11_item_update_is_independent_witness :
    [0, 1][1]? = some 1 ∧ [1, 0][1]? = some 0 ∧
    heapOf [Item.mk "Aged Brie" 2 0, Item.mk "Conjured Mana Cake" 0 6] 1
      = heapOf [Item.mk "Conjured Mana Cake" 0 6, Item.mk "Sulfuras, Hand of Ragnaros" 0 80] 0 ∧
    [0, 1].count 1 = [1, 0].count 0 ∧
    ([0, 1].map (UpdateQuality [0, 1]
        (heapOf [Item.mk "Aged Brie" 2 0, Item.mk "Conjured Mana Cake" 0 6])))[1]?
      = ([1, 0].map (UpdateQuality [1, 0]
          (heapOf [Item.mk "Conjured Mana Cake" 0 6,
            Item.mk "Sulfuras, Hand of Ragnaros" 0 80])))[1]? :=
  ⟨rfl, rfl, by decide, by decide,
    (C11_item_update_is_independent
      (heapOf [Item.mk "Aged Brie" 2 0, Item.mk "Conjured Mana Cake" 0 6])
      (heapOf [Item.mk "Conjured Mana Cake" 0 6, Item.mk "Sulfuras, Hand of Ragnaros" 0 80])
      [0, 1] [1, 0] 1 1 0 rfl rfl (by decide) (by decide)).1⟩

/-- C12. For every name at most one of the four category predicates `isSulfuras`,
`isAgedBrie`, `isBackstagePass`, `isConjured` is true; none of the three exact-match
names starts with "Conjured"; and `updateItem` gives the same result whatever the
order in which each of its two switches tests its cases. -/
theorem C12_categories_are_exclusive (item : Item) (order₁ order₂ : List SwitchCase)
    (h₁ : order₁.Perm sourceOrder) (h₂ : order₂.Perm sourceOrder) :
    [isSulfuras item, isAgedBrie item, isBackstagePass item, isConjured item].count true ≤ 1 ∧
    (¬ StartsWith "Sulfuras, Hand of Ragnaros" "Conjured" ∧
      ¬ StartsWith "Aged Brie" "Conjured" ∧
      ¬ StartsWith "Backstage passes to a TAFKAL80ETC concert" "Conjured") ∧
    updateItemIn order₁ order₂ item = updateItem item := by
  refine ⟨?_, ⟨?_, ?_, ?_⟩, ?_⟩
  · have e₁ := isConjured_exclusive item
    have e₂ := exact_names_exclusive item
    generalize isSulfuras item = s at e₁ e₂ ⊢
    generalize isAgedBrie item = a at e₁ e₂ ⊢
    generalize isBackstagePass item = b at e₁ e₂ ⊢
    generalize isConjured item = c at e₁ e₂ ⊢
    revert s a b c
    decide
  · exact fun h => absurd ((HasPrefix_iff _ _).2 h) (by decide)
  · exact fun h => absurd ((HasPrefix_iff _ _).2 h) (by decide)
  · exact fun h => absurd ((HasPrefix_iff _ _).2 h) (by decide)
  · have hU : ∀ it : Item, updateQualityIn order₁ it = updateQuality it := fun it =>
      (switchIn_order_irrelevant order₁ sourceOrder _ _ it (fun _ => h₁.mem_iff)).trans
        (updateQualityIn_sourceOrder it)
    have hH : ∀ it : Item, handleExpiredIn order₂ it = handleExpired it := fun it =>
      (switchIn_order_irrelevant order₂ sourceOrder _ _ it (fun _ => h₂.mem_iff)).trans
        (handleExpiredIn_sourceOrder it)
    unfold updateItemIn updateItem
    simp only [hU, hH]

/-- C12 at a concrete item, with the cases of both switches tried in other orders. -/
theorem C12_categories_are_exclusive_witness :
    [SwitchCase.conjured, SwitchCase.backstagePass, SwitchCase.agedBrie].Perm sourceOrder ∧
    [SwitchCase.backstagePass, SwitchCase.conjured, SwitchCase.agedBrie].Perm sourceOrder ∧
    [isSulfuras (Item.mk "Conjured Mana Cake" 0 6), isAgedBrie (Item.mk "Conjured Mana Cake" 0 6),
      isBackstagePass (Item.mk "Conjured Mana Cake" 0 6),
      isConjured (Item.mk "Conjured Mana Cake" 0 6)].count true ≤ 1 ∧
    (¬ StartsWith "Sulfuras, Hand of Ragnaros" "Conjured" ∧
      ¬ StartsWith "Aged Brie" "Conjured" ∧
      ¬ StartsWith "Backstage passes to a TAFKAL80ETC concert" "Conjured") ∧
    updateItemIn [SwitchCase.conjured, SwitchCase.backstagePass, SwitchCase.agedBrie]
        [SwitchCase.backstagePass, SwitchCase.conjured, SwitchCase.agedBrie]
        (Item.mk "Conjured Mana Cake" 0 6)
      = updateItem (Item.mk "Conjured Mana Cake" 0 6) :=
  ⟨by decide, by decide,
    C12_categories_are_exclusive (Item.mk "Conjured Mana Cake" 0 6)
      [SwitchCase.conjured, SwitchCase.backstagePass, SwitchCase.agedBrie]
      [SwitchCase.backstagePass, SwitchCase.conjured, SwitchCase.agedBrie]
      (by decide) (by decide)⟩

/-- C13, as stated, fails. A Normal item whose address stands twice in the slice is
updated twice by one call: from Quality 10 and SellIn 5 it goes to Quality 8 and
SellIn 3, not `max 0 (10 - 1 - max 0 (1 - max 0 5)) = 9` and `5 - 1`. At Quality
`minInt` the first subtraction wraps around and one call leaves Quality `maxInt`,
where the formula gives 0. And for `n = 0` a negative Quality stays as it is, where
the formula gives 0. -/
theorem C13_counterexample :
    (UpdateQuality [0, 0])^[1] (heapOf [Item.mk "Elixir of the Mongoose" 5 10]) 0
      = Item.mk "Elixir of the Mongoose" 3 8 ∧
    (8 : Int) ≠ max 0 ((10 : Int) - ((1 : Nat) : Int) - max 0 (((1 : Nat) : Int) - max 0 5)) ∧
    (8 : Int) ≠ normalLookahead 10 5 1 ∧
    (3 : Int) ≠ 5 - ((1 : Nat) : Int) ∧
    (UpdateQuality [0])^[1]
        (heapOf [Item.mk "Elixir of the Mongoose" 5 (-9223372036854775808)]) 0
      = Item.mk "Elixir of the Mongoose" 4 9223372036854775807 ∧
    (9223372036854775807 : Int) ≠ normalLookahead (-9223372036854775808) 5 1 ∧
    (UpdateQuality [0])^[0] (heapOf [Item.mk "Elixir of the Mongoose" 5 (-5)]) 0
      = Item.mk "Elixir of the Mongoose" 5 (-5) ∧
    (-5 : Int) ≠ normalLookahead (-5) 5 0 := by
  decide

/-- C13, amended. For a Normal item (Name matching none of the four special
categories) whose address stands at exactly one position of the slice, with Quality
`q` and SellIn `s` (values of `int`), and every `n ≥ 0` such that `s - n` is still a value of `int` and
either `0 ≤ q`, or `n ≥ 1` and `q` is above the least `int`: after `n` successive
`UpdateQuality` calls the Quality equals `max 0 (q - n - max 0 (n - max 0 s))` and
the SellIn equals `s - n`. -/
theorem C13_normal_item_closed_form (heap : Heap) (items : List Ptr) (n : Nat) (p : Ptr)
    (hcount : items.count p = 1)
    (hsulfuras : (heap p).Name ≠ "Sulfuras, Hand of Ragnaros")
    (hbrie : (heap p).Name ≠ "Aged Brie")
    (hpass : (heap p).Name ≠ "Backstage passes to a TAFKAL80ETC concert")
    (hconj : ¬ StartsWith (heap p).Name "Conjured")
    (htyped : (heap p).WellTyped)
    (hs : minInt ≤ (heap p).SellIn - (n : Int))
    (hq : 0 ≤ (heap p).Quality ∨ (1 ≤ n ∧ minInt < (heap p).Quality)) :
    ((UpdateQuality items)^[n] heap p).Quality
      = max 0 ((heap p).Quality - (n : Int) - max 0 ((n : Int) - max 0 (heap p).SellIn)) ∧
    ((UpdateQuality items)^[n] heap p).Quality
      = normalLookahead (heap p).Quality (heap p).SellIn n ∧
    ((UpdateQuality items)^[n] heap p).SellIn = (heap p).SellIn - (n : Int) := by
  obtain ⟨⟨-, hs₂⟩, ⟨-, hq₂⟩⟩ := htyped
  have hsulf := isSulfuras_false_of_ne _ hsulfuras
  have hform := iterate_Quality_normal n (heap p) hsulf (isAgedBrie_false_of_ne _ hbrie)
    (isBackstagePass_false_of_ne _ hpass) (isConjured_false_of_not _ hconj) hs hs₂ hq₂ hq
  rw [iterate_UpdateQuality_apply, hcount, Nat.mul_one]
  exact ⟨hform, hform, iterate_updateItem_SellIn n (heap p) hsulf hs hs₂⟩

/-- C13 amended, at a concrete inventory: two days that straddle the sell date. -/
theorem C13_normal_item_closed_form_witness :
    [0].count 0 = 1 ∧
    (heapOf [Item.mk "Elixir of the Mongoose" 1 10] 0).Name ≠ "Sulfuras, Hand of Ragnaros" ∧
    (heapOf [Item.mk "Elixir of the Mongoose" 1 10] 0).Name ≠ "Aged Brie" ∧
    (heapOf [Item.mk "Elixir of the Mongoose" 1 10] 0).Name
      ≠ "Backstage passes to a TAFKAL80ETC concert" ∧
    ¬ StartsWith (heapOf [Item.mk "Elixir of the Mongoose" 1 10] 0).Name "Conjured" ∧
    (heapOf [Item.mk "Elixir of the Mongoose" 1 10] 0).WellTyped ∧
    minInt ≤ (heapOf [Item.mk "Elixir of the Mongoose" 1 10] 0).SellIn - ((2 : Nat) : Int) ∧
    ((UpdateQuality [0])^[2] (heapOf [Item.mk "Elixir of the Mongoose" 1 10]) 0).Quality
      = max 0 ((heapOf [Item.mk "Elixir of the Mongoose" 1 10] 0).Quality - ((2 : Nat) : Int)
          - max 0 (((2 : Nat) : Int)
            - max 0 (heapOf [Item.mk "Elixir of the Mongoose" 1 10] 0).SellIn)) ∧
    ((UpdateQuality [0])^[2] (heapOf [Item.mk "Elixir of the Mongoose" 1 10]) 0).Quality
      = normalLookahead (heapOf [Item.mk "Elixir of the Mongoose" 1 10] 0).Quality
          (heapOf [Item.mk "Elixir of the Mongoose" 1 10] 0).SellIn 2 ∧
    ((UpdateQuality [0])^[2] (heapOf [Item.mk "Elixir of the Mongoose" 1 10]) 0).SellIn
      = (heapOf [Item.mk "Elixir of the Mongoose" 1 10] 0).SellIn - ((2 : Nat) : Int) :=
  ⟨by decide, by decide, by decide, by decide,
    fun h => absurd ((HasPrefix_iff _ _).2 h) (by decide), by decide, by decide,
    C13_normal_item_closed_form (heapOf [Item.mk "Elixir of the Mongoose" 1 10]) [0] 2 0
      (by decide) (by decide) (by decide) (by decide)
      (fun h => absurd ((HasPrefix_iff _ _).2 h) (by decide)) (by decide) (by decide)
      (Or.inl (by decide))⟩

/-- C14, the code at the failing input. A Backstage pass with SellIn `minInt + 1`
(`≤ 0`) and Quality 20: the first call leaves SellIn `minInt` and Quality 0; in the
second `SellIn--` wraps around to `maxInt`, `handleExpired` is not called, and the
pass is left with Quality 3 where the claim says 0. With SellIn `minInt` the first
call already leaves Quality 23. -/
theorem C14_backstage_regains_value :
    (heapOf [Item.mk "Backstage passes to a TAFKAL80ETC concert" (-9223372036854775807) 20]
      0).SellIn ≤ 0 ∧
    (UpdateQuality [0])^[1]
      (heapOf [Item.mk "Backstage passes to a TAFKAL80ETC concert" (-9223372036854775807) 20])
      0 = Item.mk "Backstage passes to a TAFKAL80ETC concert" (-9223372036854775808) 0 ∧
    (UpdateQuality [0])^[2]
      (heapOf [Item.mk "Backstage passes to a TAFKAL80ETC concert" (-9223372036854775807) 20])
      0 = Item.mk "Backstage passes to a TAFKAL80ETC concert" 9223372036854775807 3 ∧
    ((UpdateQuality [0])^[2]
      (heapOf [Item.mk "Backstage passes to a TAFKAL80ETC concert" (-9223372036854775807) 20])
      0).Quality ≠ 0 ∧
    (UpdateQuality [0])^[1]
      (heapOf [Item.mk "Backstage passes to a TAFKAL80ETC concert" (-9223372036854775808) 20])
      0 = Item.mk "Backstage passes to a TAFKAL80ETC concert" 9223372036854775807 23 := by
  decide

/-- C15. With no assumption on the Quality before the call and for any SellIn, one
`UpdateQuality` call leaves Quality `≤ 50` for an Aged Brie and for a Backstage pass
of the slice, and leaves Quality `≥ 0` for a Conjured item and for a Normal item of
the slice. -/
theorem C15_one_call_clamps (heap : Heap) (items : List Ptr) (i : Nat) (p : Ptr)
    (hget : items[i]? = some p) :
    ((heap p).Name = "Aged Brie" → (UpdateQuality items heap p).Quality ≤ 50) ∧
    ((heap p).Name = "Backstage passes to a TAFKAL80ETC concert" →
      (UpdateQuality items heap p).Quality ≤ 50) ∧
    (StartsWith (heap p).Name "Conjured" → 0 ≤ (UpdateQuality items heap p).Quality) ∧
    ((heap p).Name ≠ "Sulfuras, Hand of Ragnaros" ∧ (heap p).Name ≠ "Aged Brie" ∧
      (heap p).Name ≠ "Backstage passes to a TAFKAL80ETC concert" ∧
      ¬ StartsWith (heap p).Name "Conjured" → 0 ≤ (UpdateQuality items heap p).Quality) := by
  have hpos : 1 ≤ items.count p := count_pos_of_getElem? items i p hget
  rw [UpdateQuality_apply]
  refine ⟨fun h => ?_, fun h => ?_, fun h => ?_, fun h => ?_⟩
  · obtain ⟨hs, hb⟩ := agedBrie_flags _ h
    exact (iterate_updateItem_Quality_bounds _ _ hs hpos).1 (Or.inl hb)
  · obtain ⟨hs, -, hp⟩ := backstage_flags _ h
    exact (iterate_updateItem_Quality_bounds _ _ hs hpos).1 (Or.inr hp)
  · obtain ⟨hs, hb, hp⟩ := isConjured_exclusive _ ((isConjured_iff _).2 h)
    exact (iterate_updateItem_Quality_bounds _ _ hs hpos).2.1 ⟨hb, hp⟩
  · exact (iterate_updateItem_Quality_bounds _ _ (isSulfuras_false_of_ne _ h.1) hpos).2.1
      ⟨isAgedBrie_false_of_ne _ h.2.1, isBackstagePass_false_of_ne _ h.2.2.1⟩

/-- C15 at a concrete inventory: an Aged Brie of Quality 70 comes back to 50. -/
theorem C15_one_call_clamps_witness :
    [0][0]? = some 0 ∧
    (heapOf [Item.mk "Aged Brie" 3 70] 0).Name = "Aged Brie" ∧
    (UpdateQuality [0] (heapOf [Item.mk "Aged Brie" 3 70]) 0).Quality ≤ 50 :=
  ⟨rfl, rfl,
    (C15_one_call_clamps (heapOf [Item.mk "Aged Brie" 3 70]) [0] 0 0 rfl).1 rfl⟩

/-- C16, as stated, fails twice over. Of two Normal items of SellIn 5 and Quality 10,
the one whose address stands once in the slice ends at Quality 9 and SellIn 4, the
one whose address stands twice at Quality 8 and SellIn 3: `10 ≤ 10` before, `9 > 8`
after. And of two Normal items of SellIn 5 with Qualities `minInt ≤ 0`, each updated
once, the first wraps around to `maxInt` and the second ends at 0. -/
theorem C16_counterexample :
    UpdateQuality [0, 1, 1]
        (heapOf [Item.mk "Elixir of the Mongoose" 5 10, Item.mk "Elixir of the Mongoose" 5 10])
        0 = Item.mk "Elixir of the Mongoose" 4 9 ∧
    UpdateQuality [0, 1, 1]
        (heapOf [Item.mk "Elixir of the Mongoose" 5 10, Item.mk "Elixir of the Mongoose" 5 10])
        1 = Item.mk "Elixir of the Mongoose" 3 8 ∧
    ¬ ((9 : Int) ≤ 8) ∧ (4 : Int) ≠ 3 ∧
    UpdateQuality [0, 1]
        (heapOf [Item.mk "Elixir of the Mongoose" 5 (-9223372036854775808),
          Item.mk "Elixir of the Mongoose" 5 0])
        0 = Item.mk "Elixir of the Mongoose" 4 9223372036854775807 ∧
    UpdateQuality [0, 1]
        (heapOf [Item.mk "Elixir of the Mongoose" 5 (-9223372036854775808),
          Item.mk "Elixir of the Mongoose" 5 0])
        1 = Item.mk "Elixir of the Mongoose" 4 0 ∧
    (-9223372036854775808 : Int) ≤ 0 ∧ ¬ ((9223372036854775807 : Int) ≤ 0) := by
  decide

/-- C16, amended. The daily update is monotone in Quality for items that are updated
equally often and whose Qualities are away from the ends of the `int` range: if two
items share Name and SellIn, their addresses stand at equally many positions of the
slice (for instance once each), and their Qualities before the call satisfy
`minInt + 2 ≤ q1 ≤ q2 < maxInt`, then after one `UpdateQuality` call their Qualities
satisfy `q1' ≤ q2'` and their SellIn values are equal. -/
theorem C16_update_is_monotone_in_quality (heap : Heap) (items : List Ptr) (p₁ p₂ : Ptr)
    (hcount : items.count p₁ = items.count p₂)
    (hname : (heap p₁).Name = (heap p₂).Name) (hsell : (heap p₁).SellIn = (heap p₂).SellIn)
    (hq : (heap p₁).Quality ≤ (heap p₂).Quality)
    (hq₁ : minInt + 2 ≤ (heap p₁).Quality) (hq₂ : (heap p₂).Quality < maxInt) :
    (UpdateQuality items heap p₁).Quality ≤ (UpdateQuality items heap p₂).Quality ∧
    (UpdateQuality items heap p₁).SellIn = (UpdateQuality items heap p₂).SellIn := by
  have h := iterate_updateItem_mono (items.count p₁) (heap p₁) (heap p₂) hname hsell hq hq₁ hq₂
  rw [UpdateQuality_apply, UpdateQuality_apply, ← hcount]
  exact ⟨h.2.2.1, h.2.1⟩

/-- C16 amended, at a concrete inventory: two Backstage passes, 8 days out, Qualities
10 and 49. -/
theorem C16_update_is_monotone_in_quality_witness :
    [0, 1].count 0 = [0, 1].count 1 ∧
    (heapOf [Item.mk "Backstage passes to a TAFKAL80ETC concert" 8 10,
      Item.mk "Backstage passes to a TAFKAL80ETC concert" 8 49] 0).Quality
      ≤ (heapOf [Item.mk "Backstage passes to a TAFKAL80ETC concert" 8 10,
        Item.mk "Backstage passes to a TAFKAL80ETC concert" 8 49] 1).Quality ∧
    (UpdateQuality [0, 1]
      (heapOf [Item.mk "Backstage passes to a TAFKAL80ETC concert" 8 10,
        Item.mk "Backstage passes to a TAFKAL80ETC concert" 8 49]) 0).Quality
      ≤ (UpdateQuality [0, 1]
        (heapOf [Item.mk "Backstage passes to a TAFKAL80ETC concert" 8 10,
          Item.mk "Backstage passes to a TAFKAL80ETC concert" 8 49]) 1).Quality ∧
    (UpdateQuality [0, 1]
      (heapOf [Item.mk "Backstage passes to a TAFKAL80ETC concert" 8 10,
        Item.mk "Backstage passes to a TAFKAL80ETC concert" 8 49]) 0).SellIn
      = (UpdateQuality [0, 1]
        (heapOf [Item.mk "Backstage passes to a TAFKAL80ETC concert" 8 10,
          Item.mk "Backstage passes to a TAFKAL80ETC concert" 8 49]) 1).SellIn :=
  ⟨by decide, by decide,
    C16_update_is_monotone_in_quality
      (heapOf [Item.mk "Backstage passes to a TAFKAL80ETC concert" 8 10,
        Item.mk "Backstage passes to a TAFKAL80ETC concert" 8 49]) [0, 1] 0 1
      (by decide) rfl rfl (by decide) (by decide) (by decide)⟩

/-- C17. Quality reaches a fixed point within 50 days: for an item of the slice with
Quality in `[0, 50]` before the first call, any SellIn and any `n ≥ 50`, the Quality
after `n` successive `UpdateQuality` calls is 0 if the item is Normal or Conjured and
50 if it is an Aged Brie. -/
theorem C17_quality_fixed_point (heap : Heap) (items : List Ptr) (i n : Nat) (p : Ptr)
    (hget : items[i]? = some p)
    (hlo : 0 ≤ (heap p).Quality) (hhi : (heap p).Quality ≤ 50) (hn : 50 ≤ n) :
    ((heap p).Name ≠ "Sulfuras, Hand of Ragnaros" ∧ (heap p).Name ≠ "Aged Brie" ∧
      (heap p).Name ≠ "Backstage passes to a TAFKAL80ETC concert" ∧
      ¬ StartsWith (heap p).Name "Conjured" →
        ((UpdateQuality items)^[n] heap p).Quality = 0) ∧
    (StartsWith (heap p).Name "Conjured" → ((UpdateQuality items)^[n] heap p).Quality = 0) ∧
    ((heap p).Name = "Aged Brie" → ((UpdateQuality items)^[n] heap p).Quality = 50) := by
  have hpos := count_pos_of_getElem? items i p hget
  have hN : n ≤ n * items.count p := Nat.le_mul_of_pos_right n hpos
  have hN' : (50 : Int) ≤ ((n * items.count p : Nat) : Int) := by
    exact_mod_cast le_trans hn hN
  rw [iterate_UpdateQuality_apply]
  refine ⟨fun h => ?_, fun h => ?_, fun h => ?_⟩
  · have hs := isSulfuras_false_of_ne _ h.1
    have hup := iterate_Quality_le_sub (n * items.count p) (heap p) hs
      (isAgedBrie_false_of_ne _ h.2.1) (isBackstagePass_false_of_ne _ h.2.2.1) hlo hhi
    have hdown := (iterate_updateItem_Quality_range (n * items.count p) (heap p) hs hlo hhi).1
    omega
  · obtain ⟨hs, hb, hp⟩ := isConjured_exclusive _ ((isConjured_iff _).2 h)
    have hup := iterate_Quality_le_sub (n * items.count p) (heap p) hs hb hp hlo hhi
    have hdown := (iterate_updateItem_Quality_range (n * items.count p) (heap p) hs hlo hhi).1
    omega
  · obtain ⟨hs, hb⟩ := agedBrie_flags _ h
    have hdown := iterate_Quality_ge_add (n * items.count p) (heap p) hs hb hlo hhi
    have hup := (iterate_updateItem_Quality_range (n * items.count p) (heap p) hs hlo hhi).2
    omega

/-- C17 at a concrete inventory: a fresh Aged Brie, far from its sell date, after 50
calls. -/
theorem C17_quality_fixed_point_witness :
    [0][0]? = some 0 ∧
    0 ≤ (heapOf [Item.mk "Aged Brie" 100 0] 0).Quality ∧
    (heapOf [Item.mk "Aged Brie" 100 0] 0).Quality ≤ 50 ∧ 50 ≤ 50 ∧
    (heapOf [Item.mk "Aged Brie" 100 0] 0).Name = "Aged Brie" ∧
    ((UpdateQuality [0])^[50] (heapOf [Item.mk "Aged Brie" 100 0]) 0).Quality = 50 :=
  ⟨rfl, by decide, by decide, by decide, rfl,
    (C17_quality_fixed_point (heapOf [Item.mk "Aged Brie" 100 0]) [0] 0 50 0
      rfl (by decide) (by decide) (by decide)).2.2 rfl⟩

/-- C18, as stated, fails: `increaseQuality` on Quality `maxInt` with amount 1 wraps
around to `minInt`, which the cap lets through, where `min 50 (maxInt + 1)` is 50;
`decreaseQuality` on Quality `minInt` with amount 1 wraps around to `maxInt`, which
the floor lets through, where `max 0 (minInt - 1)` is 0. -/
theorem C18_counterexample :
    increaseQuality (Item.mk "Aged Brie" 5 9223372036854775807) 1
      = Item.mk "Aged Brie" 5 (-9223372036854775808) ∧
    (-9223372036854775808 : Int) ≠ min 50 (9223372036854775807 + 1) ∧
    decreaseQuality (Item.mk "Elixir of the Mongoose" 5 (-9223372036854775808)) 1
      = Item.mk "Elixir of the Mongoose" 5 9223372036854775807 ∧
    (9223372036854775807 : Int) ≠ max 0 (-9223372036854775808 - 1) := by
  decide

/-- C18, amended. For every item and every amount, `increaseQuality` sets Quality to
`min 50` of the wrapped sum `Quality + amount` and `decreaseQuality` sets Quality to
`max 0` of the wrapped difference `Quality - amount`, and both leave Name and SellIn
unchanged; whenever the sum (the difference) is a value of `int`, that is
`min 50 (Quality + amount)` (`max 0 (Quality - amount)`), the reference definition. -/
theorem C18_clamping_primitives (item : Item) (amount : Int) :
    increaseQuality item amount
      = Item.mk item.Name item.SellIn (min 50 (wrapInt (item.Quality + amount))) ∧
    decreaseQuality item amount
      = Item.mk item.Name item.SellIn (max 0 (wrapInt (item.Quality - amount))) ∧
    (IsInt (item.Quality + amount) →
      increaseQuality item amount
        = Item.mk item.Name item.SellIn (min 50 (item.Quality + amount))) ∧
    (IsInt (item.Quality - amount) →
      decreaseQuality item amount
        = Item.mk item.Name item.SellIn (max 0 (item.Quality - amount))) := by
  have hinc : increaseQuality item amount
      = Item.mk item.Name item.SellIn (min 50 (wrapInt (item.Quality + amount))) := by
    unfold increaseQuality
    dsimp only
    split
    · rw [min_eq_left (by omega)]
    · rw [min_eq_right (by omega)]
  have hdec : decreaseQuality item amount
      = Item.mk item.Name item.SellIn (max 0 (wrapInt (item.Quality - amount))) := by
    unfold decreaseQuality
    dsimp only
    split
    · rw [max_eq_left (by omega)]
    · rw [max_eq_right (by omega)]
  refine ⟨hinc, hdec, fun h => ?_, fun h => ?_⟩
  · rw [hinc, wrapInt_of_isInt _ h]
  · rw [hdec, wrapInt_of_isInt _ h]

/-- C18 amended, at concrete items: 49 + 3 is capped at 50 and 1 - 4 is floored at 0. -/
theorem C18_clamping_primitives_witness :
    IsInt ((Item.mk "Aged Brie" 5 49).Quality + 3) ∧
    IsInt ((Item.mk "Aged Brie" 5 1).Quality - 4) ∧
    increaseQuality (Item.mk "Aged Brie" 5 49) 3 = Item.mk "Aged Brie" 5 (min 50 (49 + 3)) ∧
    decreaseQuality (Item.mk "Aged Brie" 5 1) 4 = Item.mk "Aged Brie" 5 (max 0 (1 - 4)) :=
  ⟨by decide, by decide,
    (C18_clamping_primitives (Item.mk "Aged Brie" 5 49) 3).2.2.1 (by decide),
    (C18_clamping_primitives (Item.mk "Aged Brie" 5 1) 4).2.2.2 (by decide)⟩

end GildedRose
